import Mathlib

/-!
Shallow embedding of the beam-to-anatomy targeting pipeline of the C-arm
fluoroscopy simulator (`src/3DVisualizer/ciartic-app/src/App.jsx` and
`src/3DVisualizer/ciartic-app/src/utils/imagingGeometry.js`).

Modelling conventions:

* JavaScript numbers are modelled as exact rationals (`ℚ`); the handful of
  quantities that genuinely require a square root (the source-to-detector
  distance and the point distances of `imagingGeometry.js`, the quaternion
  normalisation of the beam pose) are modelled over `ℝ` with `Real.sqrt`.
* The special values `Infinity`, `-Infinity` and `NaN` that the three.js
  slab-method ray/box intersection manufactures (by multiplying with
  `1/0 = Infinity`) are modelled explicitly by the type `SlabV`, with the
  JavaScript comparison semantics (every comparison with `NaN` is false).
* The ray/box intersection is parameterised by the fraction `u = t / localSid`
  travelled along the un-normalised direction vector instead of the distance
  `t` along the normalised one.  Since `localSid > 0` whenever the slab method
  produces a finite parameter (lemma `intersect_fin_dir_ne_zero`), this
  rescaling by the positive constant `localSid` preserves every comparison the
  source performs and lets the whole pipeline stay in exact arithmetic.
* Mutable refs read by the per-tick animation callback (`patientBoundsRef`,
  `patientModelRef`) become explicit arguments; the world→local conversion of
  the source/detector anchors (scene-graph functionality, out of scope) is
  modelled by quantifying over the patient-local positions `localV1, localV2`.
-/

namespace CArm

/-- A 3-vector with rational coordinates (`THREE.Vector3` in exact arithmetic). -/
structure Vec3 where
  x : ℚ
  y : ℚ
  z : ℚ
deriving DecidableEq

/-- Componentwise difference, `new THREE.Vector3().subVectors(a, b)`. -/
def Vec3.sub (a b : Vec3) : Vec3 := ⟨a.x - b.x, a.y - b.y, a.z - b.z⟩

/-- Componentwise negation, `v.multiplyScalar(-1)`. -/
def Vec3.neg (a : Vec3) : Vec3 := ⟨-a.x, -a.y, -a.z⟩

/-- Dot product. -/
def Vec3.dot (a b : Vec3) : ℚ := a.x * b.x + a.y * b.y + a.z * b.z

/-- Squared length, `v.lengthSq()`. -/
def Vec3.lengthSq (a : Vec3) : ℚ := a.x * a.x + a.y * a.y + a.z * a.z

/-- The point `a + s • b`, `new THREE.Vector3().copy(a).addScaledVector(b, s)`. -/
def Vec3.addScaled (a b : Vec3) (s : ℚ) : Vec3 :=
  ⟨a.x + s * b.x, a.y + s * b.y, a.z + s * b.z⟩

/-- One of the three local coordinate axes (the string keys of the object
`s = \x7bx, y, z\x7d` in `getInferredPatientAxes`). -/
inductive Axis where
  | x
  | y
  | z
deriving DecidableEq

/-- Component of a vector along a named axis (`local[axis]`). -/
def Vec3.get : Vec3 → Axis → ℚ
  | v, .x => v.x
  | v, .y => v.y
  | v, .z => v.z

/-- Update the component of a vector along a named axis (`local[axis] = val`). -/
def Vec3.setA : Vec3 → Axis → ℚ → Vec3
  | v, .x, q => ⟨q, v.y, v.z⟩
  | v, .y, q => ⟨v.x, q, v.z⟩
  | v, .z, q => ⟨v.x, v.y, q⟩

/-- The patient bounds captured at asset-load time (`patientBoundsRef.current`):
six scalars plus the readiness flag. -/
structure PatientBounds where
  minX : ℚ
  maxX : ℚ
  minY : ℚ
  maxY : ℚ
  minZ : ℚ
  maxZ : ℚ
  ready : Bool
deriving DecidableEq

/-- Lookup `bounds['min' + axis.toUpperCase()]`. -/
def PatientBounds.minOf (b : PatientBounds) : Axis → ℚ
  | .x => b.minX
  | .y => b.minY
  | .z => b.minZ

/-- Lookup `bounds['max' + axis.toUpperCase()]`. -/
def PatientBounds.maxOf (b : PatientBounds) : Axis → ℚ
  | .x => b.maxX
  | .y => b.maxY
  | .z => b.maxZ

/-- Well-formedness of captured bounds: `THREE.Box3.setFromObject` always
produces `min ≤ max` on each axis for a non-empty mesh, so every
`PatientBounds` reachable through the capture operation satisfies this. -/
def PatientBounds.wf (b : PatientBounds) : Prop :=
  b.minX ≤ b.maxX ∧ b.minY ≤ b.maxY ∧ b.minZ ≤ b.maxZ

instance (b : PatientBounds) : Decidable b.wf := by
  unfold PatientBounds.wf; infer_instance

/-- The anatomical zone catalogue (the keys of `ZONE_DEFS`). -/
inductive Zone where
  | miss
  | head
  | thorax
  | abdomen
  | pelvis
  | shoulder
  | humerus
  | forearm
  | hand
  | femur
  | knee
  | tibia
  | ankle
  | foot
deriving DecidableEq

/-- The stable string key of each zone (`ZONE_DEFS[k].key`). -/
def Zone.key : Zone → String
  | .miss => "miss"
  | .head => "head"
  | .thorax => "thorax"
  | .abdomen => "abdomen"
  | .pelvis => "pelvis"
  | .shoulder => "shoulder"
  | .humerus => "humerus"
  | .forearm => "forearm"
  | .hand => "hand"
  | .femur => "femur"
  | .knee => "knee"
  | .tibia => "tibia"
  | .ankle => "ankle"
  | .foot => "foot"

/-- Lookup a zone record by its string key (`ZONE_DEFS[bestKey]`),
`none` when the key is not in the catalogue. -/
def zoneFromKey (k : String) : Option Zone :=
  if k = "miss" then some .miss
  else if k = "head" then some .head
  else if k = "thorax" then some .thorax
  else if k = "abdomen" then some .abdomen
  else if k = "pelvis" then some .pelvis
  else if k = "shoulder" then some .shoulder
  else if k = "humerus" then some .humerus
  else if k = "forearm" then some .forearm
  else if k = "hand" then some .hand
  else if k = "femur" then some .femur
  else if k = "knee" then some .knee
  else if k = "tibia" then some .tibia
  else if k = "ankle" then some .ankle
  else if k = "foot" then some .foot
  else none

/-- Substring test on character lists; `hasSub pat s` is true when `pat`
occurs contiguously in `s`. -/
def hasSub (pat : List Char) : List Char → Bool
  | [] => pat.isPrefixOf []
  | c :: rest => pat.isPrefixOf (c :: rest) || hasSub pat rest

/-- JavaScript `s.includes(pat)`. -/
def strContains (s pat : String) : Bool :=
  hasSub pat.toList s.toList

/-- The static landmark table `LANDMARKS_NORM`: normalized (0..1) patient-box
coordinates in the order (uLong, uWidth, uThick). -/
def LANDMARKS_NORM : List (String × Vec3) :=
  [ ("lowerSpine", ⟨0.44, 0.50, 0.50⟩),
    ("midSpine", ⟨0.62, 0.50, 0.50⟩),
    ("upperSpine", ⟨0.76, 0.50, 0.50⟩),
    ("neck", ⟨0.86, 0.50, 0.50⟩),
    ("head", ⟨0.95, 0.50, 0.50⟩),
    ("rightHip", ⟨0.42, 0.55, 0.50⟩),
    ("rightKnee", ⟨0.22, 0.55, 0.50⟩),
    ("rightFoot", ⟨0.05, 0.55, 0.50⟩),
    ("leftHip", ⟨0.42, 0.45, 0.50⟩),
    ("leftKnee", ⟨0.22, 0.45, 0.50⟩),
    ("leftFoot", ⟨0.05, 0.45, 0.50⟩),
    ("rightShoulder", ⟨0.76, 0.65, 0.50⟩),
    ("rightElbow", ⟨0.60, 0.70, 0.50⟩),
    ("rightHand", ⟨0.46, 0.72, 0.50⟩),
    ("leftShoulder", ⟨0.76, 0.35, 0.50⟩),
    ("leftElbow", ⟨0.60, 0.30, 0.50⟩),
    ("leftHand", ⟨0.46, 0.28, 0.50⟩) ]

/-- The static bone-segment list `EDGES`. -/
def EDGES : List (String × String) :=
  [ ("head", "neck"),
    ("neck", "upperSpine"),
    ("upperSpine", "midSpine"),
    ("midSpine", "lowerSpine"),
    ("lowerSpine", "leftHip"),
    ("leftHip", "leftKnee"),
    ("leftKnee", "leftFoot"),
    ("lowerSpine", "rightHip"),
    ("rightHip", "rightKnee"),
    ("rightKnee", "rightFoot"),
    ("upperSpine", "leftShoulder"),
    ("leftShoulder", "leftElbow"),
    ("leftElbow", "leftHand"),
    ("upperSpine", "rightShoulder"),
    ("rightShoulder", "rightElbow"),
    ("rightElbow", "rightHand") ]

/-- The lateral correction table `OFFSETS_LOCAL_M` (meters, applied outward
from the body midline along the width axis). -/
def OFFSETS_LOCAL_M : List (String × ℚ) :=
  [ ("rightHand", 0.20), ("leftHand", 0.20),
    ("rightKnee", 0.12), ("leftKnee", 0.12),
    ("rightFoot", 0.12), ("leftFoot", 0.12),
    ("leftElbow", 0.05), ("rightElbow", 0.05) ]

/-- The inferred long/width/thick axis assignment. -/
structure InferredAxes where
  long : Axis
  width : Axis
  thick : Axis
deriving DecidableEq

/-- Stable descending sort of the three axes by extent, written out
explicitly.  This is exactly what
`Object.keys(s).sort((a, b) => s[b] - s[a])` computes on the three-element
array `['x','y','z']` (ES2019 requires `Array.prototype.sort` to be stable,
so equal extents keep the original x, y, z order). -/
def sortAxesDesc (sx sy sz : ℚ) : Axis × Axis × Axis :=
  if sx < sy then
    if sy < sz then (.z, .y, .x)
    else if sx < sz then (.y, .z, .x)
    else (.y, .x, .z)
  else
    if sx < sz then (.z, .x, .y)
    else if sy < sz then (.x, .z, .y)
    else (.x, .y, .z)

/-- The axis-inference function `getInferredPatientAxes(bounds)`: compute the
extent of each local axis and sort descending; largest is `long`, middle is
`width`, smallest is `thick`. -/
def getInferredPatientAxes (b : PatientBounds) : InferredAxes :=
  let sx := b.maxX - b.minX
  let sy := b.maxY - b.minY
  let sz := b.maxZ - b.minZ
  let axes := sortAxesDesc sx sy sz
  ⟨axes.1, axes.2.1, axes.2.2⟩

/-- The landmark resolver `landmarkLocal(name, bounds, axes)`: denormalize the
three normalized coordinates onto the long/width/thick axes, then apply the
lateral correction (pushed outward from the width-axis midline) when the
landmark has an entry in `OFFSETS_LOCAL_M`. -/
def landmarkLocal (name : String) (b : PatientBounds) (axes : InferredAxes) : Vec3 :=
  match LANDMARKS_NORM.lookup name with
  | none => ⟨0, 0, 0⟩
  | some norm =>
    let setVal : Vec3 → Axis → ℚ → Vec3 := fun v ax uVal =>
      v.setA ax (b.minOf ax + uVal * (b.maxOf ax - b.minOf ax))
    let base := setVal (setVal (setVal ⟨0, 0, 0⟩ axes.long norm.x) axes.width norm.y) axes.thick norm.z
    match OFFSETS_LOCAL_M.lookup name with
    | none => base
    | some off =>
      let midVal := (b.minOf axes.width + b.maxOf axes.width) / 2
      let currentW := base.get axes.width
      let dir : ℚ := if midVal ≤ currentW then 1 else -1
      base.setA axes.width (currentW + off * dir)

/-- The per-name landmark map the animation loop builds before sampling
(`Object.keys(LANDMARKS_NORM).forEach(key => localLandmarks[key] = landmarkLocal(key, bounds, axes))`). -/
def buildLandmarks (b : PatientBounds) (axes : InferredAxes) : String → Option Vec3 :=
  fun name =>
    if (LANDMARKS_NORM.lookup name).isSome then some (landmarkLocal name b axes) else none

/-- The edge-to-zone cascade `getZoneKeyForEdge(startNode, endNode, t)`,
including the threshold-based splits of the knee-foot and elbow-hand edges. -/
def getZoneKeyForEdge (startNode endNode : String) (t : ℚ) : Zone :=
  let key := startNode ++ "-" ++ endNode
  if strContains key "head" || strContains key "neck" then .head
  else if strContains key "upperSpine" then .thorax
  else if strContains key "midSpine" then .abdomen
  else if strContains key "lowerSpine" && (strContains key "Hip" || strContains key "mid") then .pelvis
  else if strContains key "Hip" && strContains key "Knee" then .femur
  else if strContains key "Knee" && strContains key "Foot" then
    if t < 0.2 then .knee
    else if 0.85 < t then .foot
    else .tibia
  else if strContains key "Shoulder" && strContains key "Elbow" then .humerus
  else if strContains key "Elbow" && strContains key "Hand" then
    if 0.7 < t then .hand
    else .forearm
  else if strContains key "upperSpine" && strContains key "Shoulder" then .shoulder
  else .miss

/-- The point-to-segment distance helper of `App.jsx` (the classifier's own
copy, with the `lenSq + 1e-8` guard).  Returns the pair (squared distance,
clamped projection fraction); the source returns `\x7bd2, t, h\x7d` with
`t = h`. -/
def distancePointToSegment (P A B : Vec3) : ℚ × ℚ :=
  let pax := P.x - A.x
  let pay := P.y - A.y
  let paz := P.z - A.z
  let bax := B.x - A.x
  let bay := B.y - A.y
  let baz := B.z - A.z
  let lenSq := bax * bax + bay * bay + baz * baz
  let h := max 0 (min 1 ((pax * bax + pay * bay + paz * baz) / (lenSq + 1 / 100000000)))
  let dx := pax - bax * h
  let dy := pay - bay * h
  let dz := paz - baz * h
  (dx * dx + dy * dy + dz * dz, h)

/-- Result record of `classifyLocalPointBySkeleton`: zone, best squared
distance (`none` models the initial `Infinity`), best edge description. -/
structure SkelResult where
  zone : Zone
  d2 : Option ℚ
  edge : String
deriving DecidableEq

/-- Strict comparison against the running best squared distance
(`d2 < bestD2`, where `bestD2` starts at `Infinity`, modelled by `none`). -/
def ltBest (q : ℚ) : Option ℚ → Bool
  | none => true
  | some b => q < b

/-- One iteration of the edge loop of `classifyLocalPointBySkeleton`: skip
the edge when either endpoint is unresolved (`if (!A || !B) continue`),
otherwise keep it when its squared distance is strictly smaller than the
running best. -/
def skelStep (pLocal : Vec3) (lm : String → Option Vec3) (best : SkelResult)
    (se : String × String) : SkelResult :=
  match lm se.1, lm se.2 with
  | some A, some B =>
    let r := distancePointToSegment pLocal A B
    if ltBest r.1 best.d2 then
      ⟨getZoneKeyForEdge se.1 se.2 r.2, some r.1, se.1 ++ "->" ++ se.2⟩
    else best
  | _, _ => best

/-- The single-point classifier `classifyLocalPointBySkeleton(pLocal, localLandmarks)`:
fold over `EDGES`, skipping edges with unresolved endpoints, keeping the first
edge of strictly smallest point-to-segment squared distance, and mapping that
edge (at the projection fraction) through `getZoneKeyForEdge`. -/
def classifyLocalPointBySkeleton (pLocal : Vec3) (lm : String → Option Vec3) : SkelResult :=
  EDGES.foldl (skelStep pLocal lm) ⟨.miss, none, ""⟩

/-- A JavaScript number as it occurs inside the three.js slab-method ray/box
intersection: finite, `Infinity`, `-Infinity`, or `NaN`.  Finite values are
slab parameters in the `u = t / localSid` scale (see module comment). -/
inductive SlabV where
  | nan
  | pinf
  | ninf
  | fin (q : ℚ)
deriving DecidableEq

/-- JavaScript `<` on slab values: every comparison involving `NaN` is false,
infinities are ordered in the usual way. -/
def slabLT : SlabV → SlabV → Bool
  | .nan, _ => false
  | _, .nan => false
  | .ninf, .ninf => false
  | .ninf, _ => true
  | _, .ninf => false
  | .pinf, _ => false
  | .fin _, .pinf => true
  | .fin a, .fin b => a < b

/-- JavaScript `>` on slab values. -/
def slabGT (a b : SlabV) : Bool := slabLT b a

/-- JavaScript `>=` on slab values (false whenever either side is `NaN`). -/
def slabGE : SlabV → SlabV → Bool
  | .nan, _ => false
  | _, .nan => false
  | a, b => !slabLT a b

/-- JavaScript `isNaN`. -/
def SlabV.isNaN : SlabV → Bool
  | .nan => true
  | _ => false

/-- The product `q * Infinity` as JavaScript computes it inside the slab
method when a direction component is zero (`invdir = 1/0 = Infinity`):
`Infinity` for positive `q`, `-Infinity` for negative `q`, `NaN` for zero. -/
def mulPinf (q : ℚ) : SlabV :=
  if 0 < q then .pinf else if q < 0 then .ninf else .nan

/-- The merge `if (tymin > tmin || isNaN(tmin)) tmin = tymin` of
`THREE.Ray.intersectBox`. -/
def mergeMin (tmin tother : SlabV) : SlabV :=
  if slabGT tother tmin || tmin.isNaN then tother else tmin

/-- The merge `if (tymax < tmax || isNaN(tmax)) tmax = tymax` of
`THREE.Ray.intersectBox`. -/
def mergeMax (tmax tother : SlabV) : SlabV :=
  if slabLT tother tmax || tmax.isNaN then tother else tmax

/-- One axis of the slab method: the pair (near parameter, far parameter) for
the slab `[bmin, bmax]`, with ray origin component `o` and raw direction
component `d`.  In the source the parameters are `(bound - o) * invdir` with
`invdir = 1 / dirNorm`; division by the raw component `d` instead yields the
same value divided by `localSid` (a positive constant whenever a finite
parameter survives to the caller), and `invdir >= 0` iff `0 ≤ d` here since
`1/0 = +Infinity` in JavaScript. -/
def axisSlab (bmin bmax o d : ℚ) : SlabV × SlabV :=
  if 0 < d then (.fin ((bmin - o) / d), .fin ((bmax - o) / d))
  else if d < 0 then (.fin ((bmax - o) / d), .fin ((bmin - o) / d))
  else (mulPinf (bmin - o), mulPinf (bmax - o))

/-- The axis-aligned box built from the captured patient bounds
(`localBox.min.set(...); localBox.max.set(...)`). -/
structure Box where
  minX : ℚ
  maxX : ℚ
  minY : ℚ
  maxY : ℚ
  minZ : ℚ
  maxZ : ℚ
deriving DecidableEq

/-- Well-formed box: `min ≤ max` on each axis. -/
def Box.wf (bx : Box) : Prop :=
  bx.minX ≤ bx.maxX ∧ bx.minY ≤ bx.maxY ∧ bx.minZ ≤ bx.maxZ

instance (bx : Box) : Decidable bx.wf := by
  unfold Box.wf; infer_instance

/-- The box of a `PatientBounds`. -/
def PatientBounds.box (b : PatientBounds) : Box :=
  ⟨b.minX, b.maxX, b.minY, b.maxY, b.minZ, b.maxZ⟩

/-- `THREE.Ray.intersectBox(box, target)` in the `u = t / localSid`
parameterisation: `none` models the `null` return, `some v` the parameter of
the returned target point (`origin + v * d` when `v` is finite; a point with
infinite or `NaN` coordinates otherwise).  The structure follows the three.js
slab method line by line: per-axis slabs, the two early-exit checks, the
`NaN`-dropping merges, the `tmax < 0` rejection, and the final
`tmin >= 0 ? tmin : tmax` selection. -/
def intersectBoxU (bx : Box) (o d : Vec3) : Option SlabV :=
  let sx := axisSlab bx.minX bx.maxX o.x d.x
  let sy := axisSlab bx.minY bx.maxY o.y d.y
  let sz := axisSlab bx.minZ bx.maxZ o.z d.z
  if slabGT sx.1 sy.2 || slabGT sy.1 sx.2 then none
  else
    let tmin1 := mergeMin sx.1 sy.1
    let tmax1 := mergeMax sx.2 sy.2
    if slabGT tmin1 sz.2 || slabGT sz.1 tmax1 then none
    else
      let tminF := mergeMin tmin1 sz.1
      let tmaxF := mergeMax tmax1 sz.2
      if slabLT tmaxF (.fin 0) then none
      else some (if slabGE tminF (.fin 0) then tminF else tmaxF)

/-- The slab-combining tail of `THREE.Ray.intersectBox`, factored out of
`intersectBoxU` for reasoning: takes the six per-axis slab parameters and
performs the two early-exit checks, the `NaN`-dropping merges, the
`tmax < 0` rejection and the final `tmin >= 0 ? tmin : tmax` selection. -/
def combine (lx ux ly uy lz uz : SlabV) : Option SlabV :=
  if slabGT lx uy || slabGT ly ux then none
  else
    let tmin1 := mergeMin lx ly
    let tmax1 := mergeMax ux uy
    if slabGT tmin1 uz || slabGT lz tmax1 then none
    else
      let tminF := mergeMin tmin1 lz
      let tmaxF := mergeMax tmax1 uz
      if slabLT tmaxF (.fin 0) then none
      else some (if slabGE tminF (.fin 0) then tminF else tmaxF)

/-- Membership of the ray point at fraction `w` in one axis slab:
`bmin ≤ o + w·d ≤ bmax`. -/
def memA (bmin bmax o d w : ℚ) : Prop :=
  bmin ≤ o + w * d ∧ o + w * d ≤ bmax

/-- Membership of the ray point at fraction `w` in the box. -/
def memBox (bx : Box) (o d : Vec3) (w : ℚ) : Prop :=
  memA bx.minX bx.maxX o.x d.x w ∧ memA bx.minY bx.maxY o.y d.y w ∧
    memA bx.minZ bx.maxZ o.z d.z w

/-- Semantic interface of one axis slab pair `(l, u)` with respect to the
axis membership predicate `S`: either both parameters are finite, exactly
characterise `S` and are ordered; or neither is finite and the axis imposes
no parameter-dependent constraint (it holds everywhere unless the lower
value is `+∞` or the upper is `-∞`, which encode an origin outside a
degenerate slab). -/
def AxisOK (l u : SlabV) (S : ℚ → Prop) : Prop :=
  (∃ lq uq, l = .fin lq ∧ u = .fin uq ∧ (∀ w, S w ↔ lq ≤ w ∧ w ≤ uq) ∧ lq ≤ uq) ∨
  ((∀ q, l ≠ .fin q) ∧ (∀ q, u ≠ .fin q) ∧ (l ≠ .pinf → u ≠ .ninf → ∀ w, S w))

/-- JavaScript `Math.min(1, v)` on a slab value (`NaN` propagates). -/
def slabMin1 : SlabV → SlabV
  | .nan => .nan
  | .pinf => .fin 1
  | .ninf => .ninf
  | .fin q => .fin (min 1 q)

/-- Lines 1373–1398 of `App.jsx`: build the local ray, intersect it with the
patient box, apply the `distEntry <= localSid` guard, cast the backward ray
from the detector and derive the clamped interval.  Returns `none` when
`isHitting` stays false, and `some (tStart, tEnd)` when `isHitting` is set
(with `tEnd` as a slab value: the backward exit point can in principle have
non-finite coordinates, in which case `tExit` and `tEnd` are `NaN`-like and
the sampling guard `tEnd > tStart` fails).

Distances are expressed in beam fractions: for a finite entry parameter `u`,
`distEntry = |u| * localSid`, so the guard `distEntry <= localSid` is `|u| ≤ 1`
and `tEntry = distEntry / localSid = |u|` (`localSid > 0` holds whenever the
intersection returns a finite parameter, see `intersect_fin_dir_ne_zero`; for
a non-finite entry parameter the entry point has infinite or `NaN`
coordinates, so `distEntry <= localSid` is false and `isHitting` stays
false). -/
def beamGeom (b : PatientBounds) (localV1 localV2 : Vec3) : Option (ℚ × SlabV) :=
  let localDir := localV2.sub localV1
  let bx := b.box
  match intersectBoxU bx localV1 localDir with
  | none => none
  | some (.fin u) =>
    if |u| ≤ 1 then
      let tEntry := |u|
      let tExitS : SlabV :=
        match intersectBoxU bx localV2 localDir.neg with
        | none => .fin (1 - |u - 1|)
        | some (.fin v) => .fin (1 - |v|)
        | some _ => .nan
      some (max 0 tEntry, slabMin1 tExitS)
    else none
  | some _ => none

/-- One vote-accumulation step, `counts[key] = (counts[key] || 0) + weight`
on a JavaScript object (string keys, first-insertion iteration order). -/
def addVote : List (String × ℚ) → String → ℚ → List (String × ℚ)
  | [], k, w => [(k, w)]
  | (k0, w0) :: rest, k, w =>
    if k0 = k then (k0, w0 + w) :: rest else (k0, w0) :: addVote rest k w

/-- The vote weight `1 / (res.d2 + 1e-4)`; the initial `Infinity` distance
(`none`) would give weight `1 / Infinity = 0`. -/
def voteWeight : Option ℚ → ℚ
  | some q => 1 / (q + 1 / 10000)
  | none => 0

/-- Sample position `i` of the 9-sample loop:
`tStart + (tEnd - tStart) * (i / (SAMPLES - 1))` with `SAMPLES = 9` (the
`SAMPLES > 1` branch of the source's ternary). -/
def sampleT (tStart tEnd : ℚ) (i : ℕ) : ℚ :=
  tStart + (tEnd - tStart) * (i / 8)

/-- The local-space sample point
`sampleLocal.copy(localDir).multiplyScalar(t * localSid).add(localV1)`: since
`localDir` is normalised, this is `localV1 + t • (localV2 - localV1)`. -/
def samplePointAt (localV1 localV2 : Vec3) (t : ℚ) : Vec3 :=
  localV1.addScaled (localV2.sub localV1) t

/-- The vote table after the 9-sample loop. -/
def votesFor (b : PatientBounds) (localV1 localV2 : Vec3) (tStart tEnd : ℚ) :
    List (String × ℚ) :=
  let axes := getInferredPatientAxes b
  let lm := buildLandmarks b axes
  (List.range 9).foldl
    (fun counts i =>
      let p := samplePointAt localV1 localV2 (sampleT tStart tEnd i)
      let res := classifyLocalPointBySkeleton p lm
      addVote counts res.zone.key (voteWeight res.d2))
    []

/-- The winner scan over the accumulated votes: start from
`bestKey = 'miss'`, `bestWeight = -1`, replace on strictly greater weight. -/
def pickWinner (counts : List (String × ℚ)) : String × ℚ :=
  counts.foldl (fun best kv => if best.2 < kv.2 then kv else best) ("miss", -1)

/-- The zone selected by multi-point sampling over a non-degenerate interval
(`zoneResult = ZONE_DEFS[bestKey] || ZONE_DEFS.miss`). -/
def sampledZone (b : PatientBounds) (localV1 localV2 : Vec3) (tStart tEnd : ℚ) : Zone :=
  (zoneFromKey (pickWinner (votesFor b localV1 localV2 tStart tEnd)).1).getD .miss

/-- The list of the 9 sample fractions of one sampling pass. -/
def sampleTs (tStart tEnd : ℚ) : List ℚ :=
  (List.range 9).map (sampleT tStart tEnd)

/-- One sample's contribution to the vote table: classify the sample point
and add a vote of weight `1 / (squaredDistance + 1e-4)` (`voteWeight`) for
its zone key. -/
def voteStep (b : PatientBounds) (localV1 localV2 : Vec3)
    (counts : List (String × ℚ)) (t : ℚ) : List (String × ℚ) :=
  let p := samplePointAt localV1 localV2 t
  let res := classifyLocalPointBySkeleton p (buildLandmarks b (getInferredPatientAxes b))
  addVote counts res.zone.key (voteWeight res.d2)

/-- The per-tick classification output consumed by the UI: winning zone key
and hit flag (`beamZoneKeyRef` / `beamHitRef`). -/
structure ClassificationResult where
  zone : Zone
  hit : Bool
deriving DecidableEq

/-- The per-tick classification (the 10 Hz block of `animate`, lines
1358–1450 of `App.jsx`): short-circuit to miss unless the patient model is
present and the bounds are ready; otherwise intersect, and sample/vote only
when the clamped interval is non-degenerate (`tEnd > tStart`).  Note that
`isHitting` is set as soon as the entry guard passes, before the interval
check. -/
def classifyTick (modelPresent : Bool) (b : PatientBounds) (localV1 localV2 : Vec3) :
    ClassificationResult :=
  if modelPresent && b.ready then
    match beamGeom b localV1 localV2 with
    | none => ⟨.miss, false⟩
    | some (tStart, tEndS) =>
      match tEndS with
      | .fin tEnd =>
        if tStart < tEnd then ⟨sampledZone b localV1 localV2 tStart tEnd, true⟩
        else ⟨.miss, true⟩
      | _ => ⟨.miss, true⟩
  else ⟨.miss, false⟩

namespace Geo

/-!
Embedding of `src/3DVisualizer/ciartic-app/src/utils/imagingGeometry.js`.
The `...Into` / `...NoAlloc` variants receive scratch vectors in the source;
every scratch vector is written before it is read, so they are modelled as
plain functions of `(P, A, B)`, returning the values the source writes into
`outClosest` (and returns).
-/

/-- Euclidean distance `P.distanceTo(Q)` (the one place the utilities leave
exact rational arithmetic). -/
noncomputable def distR (a b : Vec3) : ℝ :=
  Real.sqrt (((a.sub b).lengthSq : ℚ) : ℝ)

/-- `projectPointToLineParams(P, A, B)`: unclamped projection parameter and
closest point on the infinite line, with the `lenSq < 1e-12` degenerate
guard. -/
def projectPointToLineParams (P A B : Vec3) : ℚ × Vec3 :=
  let ab := B.sub A
  let ap := P.sub A
  let lenSq := ab.lengthSq
  if lenSq < 1 / 1000000000000 then (0, A)
  else
    let t := ap.dot ab / lenSq
    (t, A.addScaled ab t)

/-- `projectPointToLineParamsInto(P, A, B, outClosest, tmpAB, tmpAP)`:
allocation-free variant; returns `(t, outClosest)`. -/
def projectPointToLineParamsInto (P A B : Vec3) : ℚ × Vec3 :=
  let tmpAB := B.sub A
  let tmpAP := P.sub A
  let lenSq := tmpAB.lengthSq
  if lenSq < 1 / 1000000000000 then (0, A)
  else
    let t := tmpAP.dot tmpAB / lenSq
    (t, A.addScaled tmpAB t)

/-- `distancePointToSegment(P, A, B)` (the `imagingGeometry.js` version, with
the `lenSq < 1e-12` guard and clamped parameter). -/
noncomputable def distancePointToSegment (P A B : Vec3) : ℝ :=
  let ab := B.sub A
  let ap := P.sub A
  let lenSq := ab.lengthSq
  if lenSq < 1 / 1000000000000 then distR P A
  else
    let t := max 0 (min 1 (ap.dot ab / lenSq))
    distR P (A.addScaled ab t)

/-- `distancePointToSegmentNoAlloc(P, A, B, outClosest, tmpAB, tmpAP)`:
project onto the infinite line, clamp, recompute the closest point only when
clamping changed the parameter, then measure the distance. -/
noncomputable def distancePointToSegmentNoAlloc (P A B : Vec3) : ℝ :=
  let pr := projectPointToLineParamsInto P A B
  let t := pr.1
  let tClamped := max 0 (min 1 t)
  let outClosest := if t = tClamped then pr.2 else A.addScaled (B.sub A) tClamped
  distR P outClosest

end Geo

/-!
Embedding of the beam geometry resolver (lines 1307–1320 of `App.jsx`): the
world-space beam pose update.  Positions and pose components are real-valued
here because the update normalises by the euclidean length.  Three.js
semantics used: `Vector3.normalize` divides by `length() || 1` (so the zero
vector is divided by 1 and stays zero), and `Quaternion.setFromUnitVectors`
followed by `Quaternion.normalize` as in the three.js sources, with
`Number.EPSILON = 2⁻⁵²`. -/

/-- A world-space vector with real coordinates. -/
structure Vec3R where
  x : ℝ
  y : ℝ
  z : ℝ

/-- Componentwise difference. -/
def Vec3R.sub (a b : Vec3R) : Vec3R := ⟨a.x - b.x, a.y - b.y, a.z - b.z⟩

/-- Dot product. -/
def Vec3R.dot (a b : Vec3R) : ℝ := a.x * b.x + a.y * b.y + a.z * b.z

/-- Squared length. -/
def Vec3R.lengthSq (a : Vec3R) : ℝ := a.x * a.x + a.y * a.y + a.z * a.z

/-- A quaternion (x, y, z, w). -/
structure Quat where
  x : ℝ
  y : ℝ
  z : ℝ
  w : ℝ

/-- The visual beam volume pose: position, orientation, scale. -/
structure BeamPose where
  position : Vec3R
  quaternion : Quat
  scale : Vec3R

open Classical in
/-- `THREE.Vector3.normalize`: `divideScalar(length() || 1)`; a zero-length
vector is divided by 1 and remains the zero vector (no NaN). -/
noncomputable def normalizeV (v : Vec3R) : Vec3R :=
  let l := Real.sqrt v.lengthSq
  let d := if l = 0 then 1 else l
  ⟨v.x / d, v.y / d, v.z / d⟩

open Classical in
/-- `THREE.Quaternion.normalize`: divide by the length, or set the identity
quaternion when the length is exactly zero. -/
noncomputable def normalizeQ (q : Quat) : Quat :=
  let l := Real.sqrt (q.x * q.x + q.y * q.y + q.z * q.z + q.w * q.w)
  if l = 0 then ⟨0, 0, 0, 1⟩ else ⟨q.x / l, q.y / l, q.z / l, q.w / l⟩

open Classical in
/-- `THREE.Quaternion.setFromUnitVectors(vFrom, vTo)`. -/
noncomputable def setFromUnitVectors (vFrom vTo : Vec3R) : Quat :=
  let r := vFrom.dot vTo + 1
  if r < (1 : ℝ) / 2 ^ 52 then
    if |vFrom.z| < |vFrom.x| then normalizeQ ⟨-vFrom.y, vFrom.x, 0, 0⟩
    else normalizeQ ⟨0, -vFrom.z, vFrom.y, 0⟩
  else
    normalizeQ ⟨vFrom.y * vTo.z - vFrom.z * vTo.y,
                vFrom.z * vTo.x - vFrom.x * vTo.z,
                vFrom.x * vTo.y - vFrom.y * vTo.x, r⟩

/-- The beam reference up axis `yAxis = new THREE.Vector3(0, 1, 0)`. -/
def yAxisR : Vec3R := ⟨0, 1, 0⟩

/-- Lines 1313–1320 of `App.jsx`: `dir = v2 - v1`, `sid = dir.length()`,
`dir.normalize()`, then `position.copy(v1)`,
`quaternion.setFromUnitVectors(yAxis, dir)`, `scale.set(0.2, sid, 0.2)`.
The update is unconditional: there is no guard on `sid`, and the previous
pose is never consulted. -/
noncomputable def updateBeamPose (prev : BeamPose) (v1 v2 : Vec3R) : BeamPose :=
  let dir := v2.sub v1
  let sid := Real.sqrt dir.lengthSq
  let dirN := normalizeV dir
  { position := v1
    quaternion := setFromUnitVectors yAxisR dirN
    scale := ⟨0.2, sid, 0.2⟩ }

/-- Extent of the patient bounds along a named axis. -/
def extentOf (b : PatientBounds) (a : Axis) : ℚ := b.maxOf a - b.minOf a

/-- Threshold rule as the claim states it (C4 / spec §4.4): assign the zone
mapped by the smallest configured threshold strictly greater than the
fraction; when no threshold exceeds the fraction, fall back to the mapping
for fraction 1.0 (the far end).  The table is assumed sorted ascending. -/
def specThresholdZone : List (ℚ × Zone) → Zone → ℚ → Zone
  | [], farEnd, _ => farEnd
  | (th, z) :: rest, farEnd, t =>
    if t < th then z else specThresholdZone rest farEnd t

/-- The claim's threshold rule for the knee-to-foot edges: split thresholds
0.2 ↦ knee and 0.85 ↦ tibia, far end (1.0) ↦ foot. -/
def claimKneeFootZone (t : ℚ) : Zone :=
  specThresholdZone [(0.2, .knee), (0.85, .tibia)] .foot t

/-- The claim's threshold rule for the elbow-to-hand edges: split threshold
0.7 ↦ forearm, far end (1.0) ↦ hand. -/
def claimElbowHandZone (t : ℚ) : Zone :=
  specThresholdZone [(0.7, .forearm)] .hand t

/-- The bounds used in the C4 counterexample (extents 1 on x, 2 on y, 1/2 on
z, so long = y, width = x, thick = z). -/
def c4Bounds : PatientBounds := ⟨0, 1, 0, 2, 0, 1/2, true⟩

/-- The resolved landmark map of the C4 counterexample bounds. -/
def c4Landmarks : String → Option Vec3 :=
  buildLandmarks c4Bounds (getInferredPatientAxes c4Bounds)

/-- The classified point of the C4 counterexample: a point chosen on the
rightKnee→rightFoot bone segment whose clamped projection fraction is
exactly 0.85. -/
def c4Point : Vec3 := ⟨67/100, 102679983/680000000, 1/4⟩

/-- Ordering on running best squared distances, `none` playing `Infinity`. -/
def d2LE : Option ℚ → Option ℚ → Prop
  | _, none => True
  | none, some _ => False
  | some a, some b => a ≤ b

/-- A simple landmark map for the C4 witness: every name resolves to the
origin. -/
def c4WitnessLm : String → Option Vec3 := fun _ => some ⟨0, 0, 0⟩

/-! ## Claim theorems -/

/-- `intersectBoxU` is `combine` applied to the three axis slabs. -/
theorem intersectBoxU_eq_combine (bx : Box) (o d : Vec3) :
    intersectBoxU bx o d =
      combine (axisSlab bx.minX bx.maxX o.x d.x).1 (axisSlab bx.minX bx.maxX o.x d.x).2
        (axisSlab bx.minY bx.maxY o.y d.y).1 (axisSlab bx.minY bx.maxY o.y d.y).2
        (axisSlab bx.minZ bx.maxZ o.z d.z).1 (axisSlab bx.minZ bx.maxZ o.z d.z).2 := rfl

/-- Claim C1: if the patient bounds are not ready (`PatientBounds.ready` is
false), the per-tick classification result is zone `miss` with hit flag
false, for every control state (every pair of local source/detector
positions) and regardless of whether the patient model object is present.
The classifier is a total function, so no error can be raised. -/
theorem claim_C1_miss_before_ready (m : Bool) (b : PatientBounds) (v1 v2 : Vec3)
    (h : b.ready = false) : classifyTick m b v1 v2 = ⟨.miss, false⟩ := by
  unfold classifyTick
  rw [h]
  simp

/-- Witness for C1 at a concrete not-ready bounds record and concrete
anchor positions. -/
theorem claim_C1_witness :
    (⟨0, 1, 0, 1, 0, 1, false⟩ : PatientBounds).ready = false ∧
    classifyTick true ⟨0, 1, 0, 1, 0, 1, false⟩ ⟨-1, 1/2, 1/2⟩ ⟨2, 1/2, 1/2⟩ = ⟨.miss, false⟩ :=
  ⟨rfl, claim_C1_miss_before_ready true _ _ _ rfl⟩

/-- Claim C6: axis inference sorts the three per-axis extents in descending
order (long ≥ width ≥ thick for every bounds record), and on bounds with
extents 1.7 on y, 0.5 on x and 0.3 on z it returns long = y, width = x,
thick = z. -/
theorem claim_C6_axis_inference :
    (∀ b : PatientBounds,
        extentOf b (getInferredPatientAxes b).width ≤ extentOf b (getInferredPatientAxes b).long ∧
        extentOf b (getInferredPatientAxes b).thick ≤ extentOf b (getInferredPatientAxes b).width) ∧
    getInferredPatientAxes ⟨0, 0.5, 0, 1.7, 0, 0.3, true⟩ =
      ⟨Axis.y, Axis.x, Axis.z⟩ := by
  constructor
  · intro b
    simp only [getInferredPatientAxes, sortAxesDesc]
    split_ifs <;>
      simp only [extentOf, PatientBounds.maxOf, PatientBounds.minOf] <;>
      exact ⟨by linarith, by linarith⟩
  · with_unfolding_all decide

/-- Claim C8: the per-tick classifier is a deterministic function of the
model-presence flag, the patient bounds and the two anchor positions; two
runs on equal inputs produce identical results (zone and hit flag).  The
embedding is a pure function, mirroring the absence of any randomness or
hidden mutable input in the source's classification path. -/
theorem claim_C8_determinism (m m2 : Bool) (b b2 : PatientBounds) (v1 v2 w1 w2 : Vec3)
    (hm : m = m2) (hb : b = b2) (h1 : v1 = w1) (h2 : v2 = w2) :
    classifyTick m b v1 v2 = classifyTick m2 b2 w1 w2 := by
  subst hm hb h1 h2
  rfl

/-- Witness for C8 at one concrete tick input. -/
theorem claim_C8_witness :
    classifyTick true ⟨0, 1, 0, 1, 0, 1, true⟩ ⟨-1, 1/2, 1/2⟩ ⟨2, 1/2, 1/2⟩ =
    classifyTick true ⟨0, 1, 0, 1, 0, 1, true⟩ ⟨-1, 1/2, 1/2⟩ ⟨2, 1/2, 1/2⟩ :=
  claim_C8_determinism true true _ _ _ _ _ _ rfl rfl rfl rfl

/-- Claim C10: the classifier's point-to-segment routine is total: its
denominator `lenSq + 1e-8` is strictly positive (hence never zero), the
returned projection parameter lies in [0, 1], and the returned squared
distance is non-negative — for every input, including degenerate segments
with `A = B`. -/
theorem claim_C10_distance_total (P A B : Vec3) :
    (B.sub A).lengthSq + 1 / 100000000 ≠ 0 ∧
    0 < (B.sub A).lengthSq + 1 / 100000000 ∧
    0 ≤ (distancePointToSegment P A B).2 ∧
    (distancePointToSegment P A B).2 ≤ 1 ∧
    0 ≤ (distancePointToSegment P A B).1 := by
  have hpos : 0 < (B.sub A).lengthSq + 1 / 100000000 := by
    have h0 : 0 ≤ (B.sub A).lengthSq :=
      add_nonneg (add_nonneg (mul_self_nonneg _) (mul_self_nonneg _)) (mul_self_nonneg _)
    linarith
  refine ⟨ne_of_gt hpos, hpos, ?_, ?_, ?_⟩
  · simp only [distancePointToSegment]
    exact le_max_left 0 _
  · simp only [distancePointToSegment]
    exact max_le (by norm_num) (min_le_left 1 _)
  · simp only [distancePointToSegment]
    exact add_nonneg (add_nonneg (mul_self_nonneg _) (mul_self_nonneg _)) (mul_self_nonneg _)

/-- Claim C9: the allocation-free geometry variants agree with the
allocating ones on every input triple: `projectPointToLineParamsInto`
returns the same parameter and writes the same closest point as
`projectPointToLineParams`, and `distancePointToSegmentNoAlloc` returns the
same distance as `distancePointToSegment`. -/
theorem claim_C9_noalloc_equiv (P A B : Vec3) :
    Geo.projectPointToLineParamsInto P A B = Geo.projectPointToLineParams P A B ∧
    Geo.distancePointToSegmentNoAlloc P A B = Geo.distancePointToSegment P A B := by
  refine ⟨rfl, ?_⟩
  simp only [Geo.distancePointToSegmentNoAlloc, Geo.distancePointToSegment,
    Geo.projectPointToLineParamsInto]
  split_ifs with h1 h2 h3
  · rfl
  · exact absurd (by norm_num) h2
  · dsimp only
    rw [← h3]
  · rfl

/-- Claim C7 counterexample: with source and detector at the same point, the
beam pose update is not skipped and the previous orientation is not
retained: starting from a pose whose quaternion is (0, 0, 1, 0), the update
replaces it (the z component becomes 0).  The zero direction survives
three.js normalisation as the zero vector (division by `length() || 1`),
and `setFromUnitVectors` then produces the identity quaternion. -/
theorem claim_C7_counterexample :
    (updateBeamPose ⟨⟨0, 0, 0⟩, ⟨0, 0, 1, 0⟩, ⟨1, 1, 1⟩⟩ ⟨0, 0, 0⟩ ⟨0, 0, 0⟩).quaternion.z ≠
      (⟨⟨0, 0, 0⟩, ⟨0, 0, 1, 0⟩, ⟨1, 1, 1⟩⟩ : BeamPose).quaternion.z := by
  simp only [updateBeamPose, normalizeV, setFromUnitVectors, normalizeQ,
    Vec3R.sub, Vec3R.dot, Vec3R.lengthSq, yAxisR]
  norm_num [Real.sqrt_zero, Real.sqrt_one]

/-- Claim C7 as amended: when source and detector coincide, the pose update
still runs every tick (the source has no guard on the source-to-detector
distance); normalisation falls back to the zero vector, so the orientation
is set to the identity quaternion — not retained — while the scale's beam
length component becomes 0 and the position is set to the anchor.  No NaN is
produced anywhere in the pose (every component is a well-defined real
number, as the theorem exhibits). -/
theorem claim_C7_amended (prev : BeamPose) (v : Vec3R) :
    updateBeamPose prev v v =
      ⟨v, ⟨0, 0, 0, 1⟩, ⟨0.2, 0, 0.2⟩⟩ := by
  simp only [updateBeamPose, normalizeV, setFromUnitVectors, normalizeQ,
    Vec3R.sub, Vec3R.dot, Vec3R.lengthSq, yAxisR]
  norm_num [Real.sqrt_zero, Real.sqrt_one]

/-- Claim C3 counterexample: a ready, well-formed tick whose local ray
enters the patient box (the entry guard passes, with entry fraction 2/3)
and whose clamped interval is degenerate (`tStart = tEnd = 2/3`, so
`tEnd ≤ tStart`): the classification zone is `miss`, but the hit flag is
`true`, not `false` as the claim states — `isHitting` is set before the
interval check (the detector sits inside the box, so the backward exit ray
yields `tExit = tEntry`). -/
theorem claim_C3_counterexample :
    beamGeom ⟨0, 1, 0, 1, 0, 1, true⟩ ⟨-1, 1/2, 1/2⟩ ⟨1/2, 1/2, 1/2⟩ =
        some (2/3, .fin (2/3)) ∧
    ¬ ((2 : ℚ)/3 < 2/3) ∧
    classifyTick true ⟨0, 1, 0, 1, 0, 1, true⟩ ⟨-1, 1/2, 1/2⟩ ⟨1/2, 1/2, 1/2⟩ =
        ⟨.miss, true⟩ ∧
    (⟨Zone.miss, true⟩ : ClassificationResult) ≠ ⟨Zone.miss, false⟩ :=
  ⟨by with_unfolding_all decide, by norm_num,
   by with_unfolding_all decide, by with_unfolding_all decide⟩

/-- Claim C3 as amended: if the ray enters the patient box and the entry
guard passes (`beamGeom` returns an interval) but the clamped interval is
degenerate or unusable (`tEnd ≤ tStart`, including the non-finite `tEnd`
cases), the classification zone for the tick is `miss` — but the hit flag
remains `true`, because `isHitting` is set before the interval check. -/
theorem claim_C3_amended (m : Bool) (b : PatientBounds) (v1 v2 : Vec3)
    (tS : ℚ) (tE : SlabV)
    (hm : m = true) (hr : b.ready = true)
    (hg : beamGeom b v1 v2 = some (tS, tE))
    (hdeg : ∀ q, tE = .fin q → ¬ tS < q) :
    classifyTick m b v1 v2 = ⟨.miss, true⟩ := by
  unfold classifyTick
  rw [hm, hr, hg]
  cases tE with
  | fin q => simp [hdeg q rfl]
  | nan => simp
  | pinf => simp
  | ninf => simp

/-- Witness for the amended C3 at the concrete degenerate tick. -/
theorem claim_C3_witness :
    classifyTick true ⟨0, 1, 0, 1, 0, 1, true⟩ ⟨-1, 1/2, 1/2⟩ ⟨1/2, 1/2, 1/2⟩ =
      ⟨.miss, true⟩ :=
  claim_C3_amended true _ _ _ (2/3) (.fin (2/3)) rfl rfl
    (by with_unfolding_all decide)
    (by intro q h; cases h; norm_num)

set_option maxRecDepth 400000 in
/-- Claim C4 counterexample: at `c4Point`, the winning (minimum squared
distance) edge is rightKnee→rightFoot and the projection fraction along it
is exactly 0.85; the claim's threshold rule ("smallest configured threshold
strictly greater than the fraction, else the 1.0 mapping") assigns `foot`
there, but the code assigns `tibia` (its comparison is `t > 0.85`,
exclusive, so the boundary fraction goes to the nearer zone). -/
theorem claim_C4_counterexample :
    c4Landmarks "rightKnee" = some ⟨67/100, 11/25, 1/4⟩ ∧
    c4Landmarks "rightFoot" = some ⟨67/100, 1/10, 1/4⟩ ∧
    (distancePointToSegment c4Point ⟨67/100, 11/25, 1/4⟩ ⟨67/100, 1/10, 1/4⟩).2 = 0.85 ∧
    (classifyLocalPointBySkeleton c4Point c4Landmarks).edge = "rightKnee->rightFoot" ∧
    claimKneeFootZone 0.85 = Zone.foot ∧
    (classifyLocalPointBySkeleton c4Point c4Landmarks).zone = Zone.tibia ∧
    Zone.tibia ≠ Zone.foot :=
  ⟨by with_unfolding_all decide, by with_unfolding_all decide,
   by with_unfolding_all decide, by with_unfolding_all decide,
   by with_unfolding_all decide, by with_unfolding_all decide,
   by with_unfolding_all decide⟩

theorem d2LE_refl (a : Option ℚ) : d2LE a a := by
  cases a <;> simp [d2LE]

theorem d2LE_trans (a b c : Option ℚ) (h1 : d2LE a b) (h2 : d2LE b c) : d2LE a c := by
  cases a <;> cases b <;> cases c <;> simp_all [d2LE]
  linarith

/-- One classifier step never increases the running best distance. -/
theorem skelStep_d2_le (p : Vec3) (lm : String → Option Vec3) (best : SkelResult)
    (se : String × String) : d2LE (skelStep p lm best se).d2 best.d2 := by
  unfold skelStep
  cases h1 : lm se.1 <;> cases h2 : lm se.2 <;> try exact d2LE_refl _
  dsimp only
  split_ifs with h
  · cases hb : best.d2
    · exact trivial
    · rw [hb] at h
      exact le_of_lt (by simpa [ltBest] using h)
  · exact d2LE_refl _

/-- The whole fold never increases the running best distance. -/
theorem skelFold_d2_le (p : Vec3) (lm : String → Option Vec3)
    (l : List (String × String)) (acc : SkelResult) :
    d2LE (l.foldl (skelStep p lm) acc).d2 acc.d2 := by
  induction l generalizing acc with
  | nil => exact d2LE_refl _
  | cons hd tl ih =>
    rw [List.foldl_cons]
    exact d2LE_trans _ _ _ (ih (skelStep p lm acc hd)) (skelStep_d2_le p lm acc hd)

/-- After a step processes a resolved edge, the running best distance is at
most that edge's squared distance. -/
theorem skelStep_le_dist (p : Vec3) (lm : String → Option Vec3) (acc : SkelResult)
    (se : String × String) (A B : Vec3) (hA : lm se.1 = some A) (hB : lm se.2 = some B) :
    d2LE (skelStep p lm acc se).d2 (some (distancePointToSegment p A B).1) := by
  unfold skelStep
  rw [hA, hB]
  dsimp only
  split_ifs with h
  · exact le_refl _
  · cases hb : acc.d2 with
    | none => rw [hb] at h; exact absurd rfl h
    | some b =>
      rw [hb] at h
      exact le_of_not_lt (by simpa [ltBest] using h)

/-- Minimality of the classifier fold: the final best squared distance is at
most the squared distance to every resolved edge of the list. -/
theorem skelFold_min (p : Vec3) (lm : String → Option Vec3)
    (l : List (String × String)) (acc : SkelResult) (se : String × String)
    (hse : se ∈ l) (A B : Vec3) (hA : lm se.1 = some A) (hB : lm se.2 = some B) :
    d2LE (l.foldl (skelStep p lm) acc).d2 (some (distancePointToSegment p A B).1) := by
  revert hse
  induction l generalizing acc with
  | nil => intro hse; cases hse
  | cons hd tl ih =>
    intro hse
    rw [List.foldl_cons]
    rcases List.mem_cons.mp hse with heq | hmem
    · subst heq
      exact d2LE_trans _ _ _ (skelFold_d2_le p lm tl (skelStep p lm acc se))
        (skelStep_le_dist p lm acc se A B hA hB)
    · exact ih (skelStep p lm acc hd) hmem

/-- The classifier fold either returns its accumulator unchanged or returns
the record of one of the resolved edges of the list (zone assigned by
`getZoneKeyForEdge` at that edge's projection fraction). -/
theorem skelFold_attained (p : Vec3) (lm : String → Option Vec3)
    (l : List (String × String)) (acc : SkelResult) :
    l.foldl (skelStep p lm) acc = acc ∨
    ∃ se ∈ l, ∃ A B, lm se.1 = some A ∧ lm se.2 = some B ∧
      l.foldl (skelStep p lm) acc =
        ⟨getZoneKeyForEdge se.1 se.2 (distancePointToSegment p A B).2,
         some (distancePointToSegment p A B).1, se.1 ++ "->" ++ se.2⟩ := by
  induction l generalizing acc with
  | nil => left; rfl
  | cons hd tl ih =>
    have hstep : skelStep p lm acc hd = acc ∨
        ∃ A B, lm hd.1 = some A ∧ lm hd.2 = some B ∧
          skelStep p lm acc hd =
            ⟨getZoneKeyForEdge hd.1 hd.2 (distancePointToSegment p A B).2,
             some (distancePointToSegment p A B).1, hd.1 ++ "->" ++ hd.2⟩ := by
      unfold skelStep
      cases h1 : lm hd.1 <;> cases h2 : lm hd.2 <;> try exact Or.inl rfl
      dsimp only
      split_ifs with h
      · exact Or.inr ⟨_, _, rfl, rfl, rfl⟩
      · exact Or.inl rfl
    rw [List.foldl_cons]
    rcases ih (skelStep p lm acc hd) with heq | ⟨se, hmem, A, B, hA, hB, hres⟩
    · rcases hstep with h0 | ⟨A, B, hA, hB, hres⟩
      · left; rw [heq, h0]
      · right
        exact ⟨hd, List.mem_cons_self hd tl, A, B, hA, hB, by rw [heq, hres]⟩
    · right
      exact ⟨se, List.mem_cons_of_mem hd hmem, A, B, hA, hB, hres⟩

/-- Explicit interval form of the `rightKnee-rightFoot` edge rule of `getZoneKeyForEdge`. -/
theorem zoneRule_rightKnee_rightFoot (t : ℚ) :
    getZoneKeyForEdge "rightKnee" "rightFoot" t = (if t < 0.2 then Zone.knee else if t ≤ 0.85 then Zone.tibia else Zone.foot) := by
  have e : (strContains ("rightKnee" ++ "-" ++ "rightFoot") "head" = false) ∧
        (strContains ("rightKnee" ++ "-" ++ "rightFoot") "neck" = false) ∧
        (strContains ("rightKnee" ++ "-" ++ "rightFoot") "upperSpine" = false) ∧
        (strContains ("rightKnee" ++ "-" ++ "rightFoot") "midSpine" = false) ∧
        (strContains ("rightKnee" ++ "-" ++ "rightFoot") "lowerSpine" = false) ∧
        (strContains ("rightKnee" ++ "-" ++ "rightFoot") "Hip" = false) ∧
        (strContains ("rightKnee" ++ "-" ++ "rightFoot") "mid" = false) ∧
        (strContains ("rightKnee" ++ "-" ++ "rightFoot") "Knee" = true) ∧
        (strContains ("rightKnee" ++ "-" ++ "rightFoot") "Foot" = true) ∧
        (strContains ("rightKnee" ++ "-" ++ "rightFoot") "Shoulder" = false) ∧
        (strContains ("rightKnee" ++ "-" ++ "rightFoot") "Elbow" = false) ∧
        (strContains ("rightKnee" ++ "-" ++ "rightFoot") "Hand" = false) := by
    refine ⟨?_, ?_, ?_, ?_, ?_, ?_, ?_, ?_, ?_, ?_, ?_, ?_⟩ <;> with_unfolding_all decide
  obtain ⟨e1, e2, e3, e4, e5, e6, e7, e8, e9, e10, e11, e12⟩ := e
  simp only [getZoneKeyForEdge, e1, e2, e3, e4, e5, e6, e7, e8, e9, e10, e11, e12,
    Bool.or_self, Bool.or_false, Bool.false_or, Bool.true_or, Bool.or_true,
    Bool.and_self, Bool.and_false, Bool.false_and, Bool.true_and, Bool.and_true]
  norm_num
  split_ifs <;> first | rfl | (exfalso; linarith)

/-- Explicit interval form of the `leftKnee-leftFoot` edge rule of `getZoneKeyForEdge`. -/
theorem zoneRule_leftKnee_leftFoot (t : ℚ) :
    getZoneKeyForEdge "leftKnee" "leftFoot" t = (if t < 0.2 then Zone.knee else if t ≤ 0.85 then Zone.tibia else Zone.foot) := by
  have e : (strContains ("leftKnee" ++ "-" ++ "leftFoot") "head" = false) ∧
        (strContains ("leftKnee" ++ "-" ++ "leftFoot") "neck" = false) ∧
        (strContains ("leftKnee" ++ "-" ++ "leftFoot") "upperSpine" = false) ∧
        (strContains ("leftKnee" ++ "-" ++ "leftFoot") "midSpine" = false) ∧
        (strContains ("leftKnee" ++ "-" ++ "leftFoot") "lowerSpine" = false) ∧
        (strContains ("leftKnee" ++ "-" ++ "leftFoot") "Hip" = false) ∧
        (strContains ("leftKnee" ++ "-" ++ "leftFoot") "mid" = false) ∧
        (strContains ("leftKnee" ++ "-" ++ "leftFoot") "Knee" = true) ∧
        (strContains ("leftKnee" ++ "-" ++ "leftFoot") "Foot" = true) ∧
        (strContains ("leftKnee" ++ "-" ++ "leftFoot") "Shoulder" = false) ∧
        (strContains ("leftKnee" ++ "-" ++ "leftFoot") "Elbow" = false) ∧
        (strContains ("leftKnee" ++ "-" ++ "leftFoot") "Hand" = false) := by
    refine ⟨?_, ?_, ?_, ?_, ?_, ?_, ?_, ?_, ?_, ?_, ?_, ?_⟩ <;> with_unfolding_all decide
  obtain ⟨e1, e2, e3, e4, e5, e6, e7, e8, e9, e10, e11, e12⟩ := e
  simp only [getZoneKeyForEdge, e1, e2, e3, e4, e5, e6, e7, e8, e9, e10, e11, e12,
    Bool.or_self, Bool.or_false, Bool.false_or, Bool.true_or, Bool.or_true,
    Bool.and_self, Bool.and_false, Bool.false_and, Bool.true_and, Bool.and_true]
  norm_num
  split_ifs <;> first | rfl | (exfalso; linarith)

/-- Explicit interval form of the `rightElbow-rightHand` edge rule of `getZoneKeyForEdge`. -/
theorem zoneRule_rightElbow_rightHand (t : ℚ) :
    getZoneKeyForEdge "rightElbow" "rightHand" t = (if t ≤ 0.7 then Zone.forearm else Zone.hand) := by
  have e : (strContains ("rightElbow" ++ "-" ++ "rightHand") "head" = false) ∧
        (strContains ("rightElbow" ++ "-" ++ "rightHand") "neck" = false) ∧
        (strContains ("rightElbow" ++ "-" ++ "rightHand") "upperSpine" = false) ∧
        (strContains ("rightElbow" ++ "-" ++ "rightHand") "midSpine" = false) ∧
        (strContains ("rightElbow" ++ "-" ++ "rightHand") "lowerSpine" = false) ∧
        (strContains ("rightElbow" ++ "-" ++ "rightHand") "Hip" = false) ∧
        (strContains ("rightElbow" ++ "-" ++ "rightHand") "mid" = false) ∧
        (strContains ("rightElbow" ++ "-" ++ "rightHand") "Knee" = false) ∧
        (strContains ("rightElbow" ++ "-" ++ "rightHand") "Foot" = false) ∧
        (strContains ("rightElbow" ++ "-" ++ "rightHand") "Shoulder" = false) ∧
        (strContains ("rightElbow" ++ "-" ++ "rightHand") "Elbow" = true) ∧
        (strContains ("rightElbow" ++ "-" ++ "rightHand") "Hand" = true) := by
    refine ⟨?_, ?_, ?_, ?_, ?_, ?_, ?_, ?_, ?_, ?_, ?_, ?_⟩ <;> with_unfolding_all decide
  obtain ⟨e1, e2, e3, e4, e5, e6, e7, e8, e9, e10, e11, e12⟩ := e
  simp only [getZoneKeyForEdge, e1, e2, e3, e4, e5, e6, e7, e8, e9, e10, e11, e12,
    Bool.or_self, Bool.or_false, Bool.false_or, Bool.true_or, Bool.or_true,
    Bool.and_self, Bool.and_false, Bool.false_and, Bool.true_and, Bool.and_true]
  norm_num
  split_ifs <;> first | rfl | (exfalso; linarith)

/-- Explicit interval form of the `leftElbow-leftHand` edge rule of `getZoneKeyForEdge`. -/
theorem zoneRule_leftElbow_leftHand (t : ℚ) :
    getZoneKeyForEdge "leftElbow" "leftHand" t = (if t ≤ 0.7 then Zone.forearm else Zone.hand) := by
  have e : (strContains ("leftElbow" ++ "-" ++ "leftHand") "head" = false) ∧
        (strContains ("leftElbow" ++ "-" ++ "leftHand") "neck" = false) ∧
        (strContains ("leftElbow" ++ "-" ++ "leftHand") "upperSpine" = false) ∧
        (strContains ("leftElbow" ++ "-" ++ "leftHand") "midSpine" = false) ∧
        (strContains ("leftElbow" ++ "-" ++ "leftHand") "lowerSpine" = false) ∧
        (strContains ("leftElbow" ++ "-" ++ "leftHand") "Hip" = false) ∧
        (strContains ("leftElbow" ++ "-" ++ "leftHand") "mid" = false) ∧
        (strContains ("leftElbow" ++ "-" ++ "leftHand") "Knee" = false) ∧
        (strContains ("leftElbow" ++ "-" ++ "leftHand") "Foot" = false) ∧
        (strContains ("leftElbow" ++ "-" ++ "leftHand") "Shoulder" = false) ∧
        (strContains ("leftElbow" ++ "-" ++ "leftHand") "Elbow" = true) ∧
        (strContains ("leftElbow" ++ "-" ++ "leftHand") "Hand" = true) := by
    refine ⟨?_, ?_, ?_, ?_, ?_, ?_, ?_, ?_, ?_, ?_, ?_, ?_⟩ <;> with_unfolding_all decide
  obtain ⟨e1, e2, e3, e4, e5, e6, e7, e8, e9, e10, e11, e12⟩ := e
  simp only [getZoneKeyForEdge, e1, e2, e3, e4, e5, e6, e7, e8, e9, e10, e11, e12,
    Bool.or_self, Bool.or_false, Bool.false_or, Bool.true_or, Bool.or_true,
    Bool.and_self, Bool.and_false, Bool.false_and, Bool.true_and, Bool.and_true]
  norm_num
  split_ifs <;> first | rfl | (exfalso; linarith)

/-- Claim C4 as amended: the winning edge is one of minimum point-to-segment
squared distance over all (resolved) edges, and the zone is assigned by the
winning edge's rule — but the boundary behaviour of the threshold tables
differs from the claim: a fraction exactly equal to the last split threshold
(0.85 on the knee-to-foot edges, 0.7 on the elbow-to-hand edges) is assigned
to the nearer zone (tibia resp. forearm); only fractions strictly above the
threshold get the far-end zone (foot resp. hand).  Below, the zone for the
knee-to-foot edges is knee on [0, 0.2), tibia on [0.2, 0.85], foot on
(0.85, 1]; for the elbow-to-hand edges it is forearm on [0, 0.7] and hand on
(0.7, 1]. -/
theorem claim_C4_amended (p : Vec3) (lm : String → Option Vec3) :
    (∀ se ∈ EDGES, ∀ A B, lm se.1 = some A → lm se.2 = some B →
        ∀ q, (classifyLocalPointBySkeleton p lm).d2 = some q →
          q ≤ (distancePointToSegment p A B).1) ∧
    (∀ q, (classifyLocalPointBySkeleton p lm).d2 = some q →
        ∃ se ∈ EDGES, ∃ A B, lm se.1 = some A ∧ lm se.2 = some B ∧
          q = (distancePointToSegment p A B).1 ∧
          (classifyLocalPointBySkeleton p lm).zone =
            getZoneKeyForEdge se.1 se.2 (distancePointToSegment p A B).2) ∧
    (∀ t : ℚ, getZoneKeyForEdge "rightKnee" "rightFoot" t =
        if t < 0.2 then Zone.knee else if t ≤ 0.85 then Zone.tibia else Zone.foot) ∧
    (∀ t : ℚ, getZoneKeyForEdge "leftKnee" "leftFoot" t =
        if t < 0.2 then Zone.knee else if t ≤ 0.85 then Zone.tibia else Zone.foot) ∧
    (∀ t : ℚ, getZoneKeyForEdge "rightElbow" "rightHand" t =
        if t ≤ 0.7 then Zone.forearm else Zone.hand) ∧
    (∀ t : ℚ, getZoneKeyForEdge "leftElbow" "leftHand" t =
        if t ≤ 0.7 then Zone.forearm else Zone.hand) := by
  refine ⟨?_, ?_, ?_, ?_, ?_, ?_⟩
  · intro se hse A B hA hB q hq
    have h := skelFold_min p lm EDGES ⟨.miss, none, ""⟩ se hse A B hA hB
    unfold classifyLocalPointBySkeleton at hq
    rw [hq] at h
    exact h
  · intro q hq
    rcases skelFold_attained p lm EDGES ⟨.miss, none, ""⟩ with heq | ⟨se, hmem, A, B, hA, hB, hres⟩
    · unfold classifyLocalPointBySkeleton at hq
      rw [heq] at hq
      cases hq
    · refine ⟨se, hmem, A, B, hA, hB, ?_, ?_⟩
      · unfold classifyLocalPointBySkeleton at hq
        rw [hres] at hq
        cases hq
        rfl
      · unfold classifyLocalPointBySkeleton
        rw [hres]
  · exact zoneRule_rightKnee_rightFoot
  · exact zoneRule_leftKnee_leftFoot
  · exact zoneRule_rightElbow_rightHand
  · exact zoneRule_leftElbow_leftHand

set_option maxRecDepth 400000 in
set_option maxHeartbeats 2000000 in
/-- Witness for the amended C4: instantiating the minimality part at a
concrete point, landmark map and edge. -/
theorem claim_C4_witness :
    ("head", "neck") ∈ EDGES ∧
    (classifyLocalPointBySkeleton ⟨1, 0, 0⟩ c4WitnessLm).d2 = some 1 ∧
    (1 : ℚ) ≤ (distancePointToSegment ⟨1, 0, 0⟩ ⟨0, 0, 0⟩ ⟨0, 0, 0⟩).1 :=
  ⟨by with_unfolding_all decide, by with_unfolding_all decide,
   (claim_C4_amended ⟨1, 0, 0⟩ c4WitnessLm).1 ("head", "neck")
     (by with_unfolding_all decide) ⟨0, 0, 0⟩ ⟨0, 0, 0⟩ rfl rfl 1
     (by with_unfolding_all decide)⟩

/-- The squared distance returned by the classifier's distance helper is a
sum of squares, hence non-negative. -/
theorem dist_d2_nonneg (P A B : Vec3) : 0 ≤ (distancePointToSegment P A B).1 :=
  add_nonneg (add_nonneg (mul_self_nonneg _) (mul_self_nonneg _)) (mul_self_nonneg _)

/-- A finite best distance produced by the single-point classifier is
non-negative. -/
theorem classify_d2_nonneg (p : Vec3) (lm : String → Option Vec3) (q : ℚ)
    (hq : (classifyLocalPointBySkeleton p lm).d2 = some q) : 0 ≤ q := by
  rcases skelFold_attained p lm EDGES ⟨.miss, none, ""⟩ with heq | ⟨se, _, A, B, _, _, hres⟩
  · unfold classifyLocalPointBySkeleton at hq
    rw [heq] at hq
    cases hq
  · unfold classifyLocalPointBySkeleton at hq
    rw [hres] at hq
    cases hq
    exact dist_d2_nonneg p A B

/-- Vote weights are non-negative whenever the distance is (and the
`Infinity` case contributes 0). -/
theorem voteWeight_nonneg (d : Option ℚ) (h : ∀ q, d = some q → 0 ≤ q) :
    0 ≤ voteWeight d := by
  cases d with
  | none => exact le_refl 0
  | some q =>
    have hq := h q rfl
    unfold voteWeight
    positivity

/-- `addVote` never produces the empty table. -/
theorem addVote_ne_nil (counts : List (String × ℚ)) (k : String) (w : ℚ) :
    addVote counts k w ≠ [] := by
  cases counts with
  | nil => simp [addVote]
  | cons hd tl =>
    unfold addVote
    split_ifs <;> simp

/-- `addVote` preserves non-negativity of all stored weights. -/
theorem addVote_nonneg (counts : List (String × ℚ)) (k : String) (w : ℚ)
    (hw : 0 ≤ w) (hc : ∀ kv ∈ counts, 0 ≤ kv.2) :
    ∀ kv ∈ addVote counts k w, 0 ≤ kv.2 := by
  induction counts with
  | nil =>
    intro kv hkv
    simp only [addVote, List.mem_singleton] at hkv
    subst hkv
    exact hw
  | cons hd tl ih =>
    intro kv hkv
    unfold addVote at hkv
    split_ifs at hkv with h
    · rcases List.mem_cons.mp hkv with heq | hmem
      · subst heq
        have := hc hd (List.mem_cons_self hd tl)
        dsimp only
        linarith
      · exact hc kv (List.mem_cons_of_mem hd hmem)
    · rcases List.mem_cons.mp hkv with heq | hmem
      · subst heq
        exact hc hd (List.mem_cons_self _ _)
      · exact ih (fun p hp => hc p (List.mem_cons_of_mem hd hp)) kv hmem

/-- Every weight accumulated by the 9-sample vote loop is non-negative. -/
theorem votesFor_nonneg (b : PatientBounds) (v1 v2 : Vec3) (tS tE : ℚ) :
    ∀ kv ∈ votesFor b v1 v2 tS tE, 0 ≤ kv.2 := by
  unfold votesFor
  generalize List.range 9 = l
  have h : ∀ (l : List ℕ) (init : List (String × ℚ)), (∀ kv ∈ init, 0 ≤ kv.2) →
      ∀ kv ∈ l.foldl (fun counts i =>
        addVote counts
          (classifyLocalPointBySkeleton (samplePointAt v1 v2 (sampleT tS tE i))
            (buildLandmarks b (getInferredPatientAxes b))).zone.key
          (voteWeight (classifyLocalPointBySkeleton (samplePointAt v1 v2 (sampleT tS tE i))
            (buildLandmarks b (getInferredPatientAxes b))).d2)) init, 0 ≤ kv.2 := by
    intro l
    induction l with
    | nil => intro init hinit kv hkv; exact hinit kv hkv
    | cons hd tl ih =>
      intro init hinit kv hkv
      rw [List.foldl_cons] at hkv
      refine ih _ ?_ kv hkv
      exact addVote_nonneg init _ _
        (voteWeight_nonneg _ (classify_d2_nonneg _ _)) hinit
  exact h l [] (by intro kv hkv; cases hkv)

/-- The vote loop produces a non-empty table. -/
theorem votesFor_ne_nil (b : PatientBounds) (v1 v2 : Vec3) (tS tE : ℚ) :
    votesFor b v1 v2 tS tE ≠ [] := by
  unfold votesFor
  have h : ∀ (l : List ℕ) (init : List (String × ℚ)), (init ≠ [] ∨ l ≠ []) →
      l.foldl (fun counts i =>
        addVote counts
          (classifyLocalPointBySkeleton (samplePointAt v1 v2 (sampleT tS tE i))
            (buildLandmarks b (getInferredPatientAxes b))).zone.key
          (voteWeight (classifyLocalPointBySkeleton (samplePointAt v1 v2 (sampleT tS tE i))
            (buildLandmarks b (getInferredPatientAxes b))).d2)) init ≠ [] := by
    intro l
    induction l with
    | nil =>
      intro init hinit
      rcases hinit with h1 | h2
      · exact h1
      · exact absurd rfl h2
    | cons hd tl ih =>
      intro init _
      rw [List.foldl_cons]
      exact ih _ (Or.inl (addVote_ne_nil _ _ _))
  exact h _ [] (Or.inr (by simp))

/-- The winner fold yields its initial pair or a member of the list. -/
theorem pickFold_mem (l : List (String × ℚ)) (b : String × ℚ) :
    l.foldl (fun best kv => if best.2 < kv.2 then kv else best) b = b ∨
    l.foldl (fun best kv => if best.2 < kv.2 then kv else best) b ∈ l := by
  induction l generalizing b with
  | nil => exact Or.inl rfl
  | cons hd tl ih =>
    rw [List.foldl_cons]
    rcases ih (if b.2 < hd.2 then hd else b) with heq | hmem
    · rw [heq]
      split_ifs with h
      · exact Or.inr (List.mem_cons_self _ _)
      · exact Or.inl rfl
    · exact Or.inr (List.mem_cons_of_mem hd hmem)

/-- The winner fold's weight dominates the initial pair's weight. -/
theorem pickFold_ge_init (l : List (String × ℚ)) (b : String × ℚ) :
    b.2 ≤ (l.foldl (fun best kv => if best.2 < kv.2 then kv else best) b).2 := by
  induction l generalizing b with
  | nil => exact le_refl _
  | cons hd tl ih =>
    rw [List.foldl_cons]
    refine le_trans ?_ (ih (if b.2 < hd.2 then hd else b))
    split_ifs with h
    · exact le_of_lt h
    · exact le_refl _

/-- The winner fold's weight dominates every weight in the list. -/
theorem pickFold_ge_all (l : List (String × ℚ)) (b : String × ℚ) :
    ∀ kv ∈ l, kv.2 ≤ (l.foldl (fun best kv => if best.2 < kv.2 then kv else best) b).2 := by
  induction l generalizing b with
  | nil => intro kv hkv; cases hkv
  | cons hd tl ih =>
    intro kv hkv
    rw [List.foldl_cons]
    rcases List.mem_cons.mp hkv with heq | hmem
    · subst heq
      refine le_trans ?_ (pickFold_ge_init tl _)
      split_ifs with h
      · exact le_refl _
      · exact le_of_not_lt h
    · exact ih _ kv hmem

/-- On a non-empty table with non-negative weights, `pickWinner` returns a
member of the table whose weight is maximal. -/
theorem pickWinner_spec (counts : List (String × ℚ)) (hne : counts ≠ [])
    (hw : ∀ kv ∈ counts, 0 ≤ kv.2) :
    pickWinner counts ∈ counts ∧ ∀ kv ∈ counts, kv.2 ≤ (pickWinner counts).2 := by
  unfold pickWinner
  refine ⟨?_, pickFold_ge_all counts _⟩
  rcases pickFold_mem counts ("miss", -1) with heq | hmem
  · exfalso
    cases counts with
    | nil => exact hne rfl
    | cons hd tl =>
      have h1 := pickFold_ge_all (hd :: tl) ("miss", -1) hd (List.mem_cons_self _ _)
      rw [heq] at h1
      have h2 := hw hd (List.mem_cons_self _ _)
      dsimp at h1
      linarith
  · exact hmem

/-- Claim C5: for every non-degenerate hit interval (`tEnd > tStart`), the
beam classification takes exactly 9 evenly spaced samples inclusive of both
interval ends, accumulates one vote per sample for the sample's classified
zone with weight `1 / (squaredDistance + 1e-4)` (the `voteStep` fold over the
sample list, with `voteWeight`), and the tick returns the zone whose
accumulated vote weight is maximal (the winner is a member of the vote table
and dominates every stored weight). -/
theorem claim_C5_sampling (b : PatientBounds) (v1 v2 : Vec3) (tS tE : ℚ)
    (hr : b.ready = true)
    (hgeom : beamGeom b v1 v2 = some (tS, .fin tE)) (hlt : tS < tE) :
    classifyTick true b v1 v2 = ⟨sampledZone b v1 v2 tS tE, true⟩ ∧
    (sampleTs tS tE).length = 9 ∧
    (sampleTs tS tE).head? = some tS ∧
    (sampleTs tS tE).getLast? = some tE ∧
    (∀ i < 8, sampleT tS tE (i + 1) - sampleT tS tE i = (tE - tS) / 8) ∧
    votesFor b v1 v2 tS tE = (sampleTs tS tE).foldl (voteStep b v1 v2) [] ∧
    pickWinner (votesFor b v1 v2 tS tE) ∈ votesFor b v1 v2 tS tE ∧
    (∀ kv ∈ votesFor b v1 v2 tS tE, kv.2 ≤ (pickWinner (votesFor b v1 v2 tS tE)).2) ∧
    sampledZone b v1 v2 tS tE =
      (zoneFromKey (pickWinner (votesFor b v1 v2 tS tE)).1).getD .miss := by
  have hpick := pickWinner_spec (votesFor b v1 v2 tS tE)
    (votesFor_ne_nil b v1 v2 tS tE) (votesFor_nonneg b v1 v2 tS tE)
  refine ⟨?_, rfl, ?_, ?_, ?_, ?_, hpick.1, hpick.2, rfl⟩
  · unfold classifyTick
    rw [hr, hgeom]
    simp only [Bool.and_self, if_true, if_pos hlt]
  · simp only [sampleTs, List.range_succ, List.map_append, List.head?]
    norm_num [sampleT]
  · have h8 : sampleT tS tE 8 = tE := by
      unfold sampleT
      push_cast
      ring_nf
    simp [sampleTs, List.range_succ, h8]
  · intro i _
    unfold sampleT
    push_cast
    ring
  · unfold votesFor sampleTs
    rw [List.foldl_map]
    rfl

/-- Witness for C5 at a concrete non-degenerate tick (beam crossing the box
from x = -1 to x = 2, interval [1/3, 2/3]). -/
theorem claim_C5_witness :
    beamGeom ⟨0, 1, 0, 1, 0, 1, true⟩ ⟨-1, 1/2, 1/2⟩ ⟨2, 1/2, 1/2⟩ =
        some (1/3, .fin (2/3)) ∧
    ((1 : ℚ)/3 < 2/3) ∧
    classifyTick true ⟨0, 1, 0, 1, 0, 1, true⟩ ⟨-1, 1/2, 1/2⟩ ⟨2, 1/2, 1/2⟩ =
      ⟨sampledZone ⟨0, 1, 0, 1, 0, 1, true⟩ ⟨-1, 1/2, 1/2⟩ ⟨2, 1/2, 1/2⟩ (1/3) (2/3), true⟩ :=
  ⟨by with_unfolding_all decide, by norm_num,
   (claim_C5_sampling ⟨0, 1, 0, 1, 0, 1, true⟩ ⟨-1, 1/2, 1/2⟩ ⟨2, 1/2, 1/2⟩ (1/3) (2/3)
      rfl (by with_unfolding_all decide) (by norm_num)).1⟩

/-! ### Slab-value toolkit for the interval invariant (C2) -/

theorem mergeMin_cases (a b : SlabV) : mergeMin a b = a ∨ mergeMin a b = b := by
  unfold mergeMin
  split_ifs <;> simp

theorem mergeMax_cases (a b : SlabV) : mergeMax a b = a ∨ mergeMax a b = b := by
  unfold mergeMax
  split_ifs <;> simp

theorem mergeMin_fin_ge (a b : SlabV) (q : ℚ) (h : mergeMin a b = .fin q) :
    (∀ p, a = .fin p → p ≤ q) ∧ (∀ p, b = .fin p → p ≤ q) := by
  unfold mergeMin at h
  split_ifs at h with hcond
  · subst h
    constructor
    · intro p hp
      subst hp
      rcases Bool.or_eq_true_iff.mp hcond with h1 | h1
      · exact le_of_lt (by simpa [slabGT, slabLT] using h1)
      · simp [SlabV.isNaN] at h1
    · intro p hp
      cases hp
      exact le_refl q
  · subst h
    simp only [Bool.or_eq_true, not_or, Bool.not_eq_true] at hcond
    constructor
    · intro p hp
      cases hp
      exact le_refl q
    · intro p hp
      subst hp
      exact le_of_not_lt (by simpa [slabGT, slabLT] using hcond.1)

theorem mergeMax_fin_le (a b : SlabV) (q : ℚ) (h : mergeMax a b = .fin q) :
    (∀ p, a = .fin p → q ≤ p) ∧ (∀ p, b = .fin p → q ≤ p) := by
  unfold mergeMax at h
  split_ifs at h with hcond
  · subst h
    constructor
    · intro p hp
      subst hp
      rcases Bool.or_eq_true_iff.mp hcond with h1 | h1
      · exact le_of_lt (by simpa [slabLT] using h1)
      · simp [SlabV.isNaN] at h1
    · intro p hp
      cases hp
      exact le_refl q
  · subst h
    simp only [Bool.or_eq_true, not_or, Bool.not_eq_true] at hcond
    constructor
    · intro p hp
      cases hp
      exact le_refl q
    · intro p hp
      subst hp
      exact le_of_not_lt (by simpa [slabLT] using hcond.1)

theorem mergeMin_pinf (a b : SlabV) (h : a = .pinf ∨ b = .pinf) :
    mergeMin a b = .pinf := by
  unfold mergeMin
  rcases h with h | h <;> subst h
  · cases b <;> simp [slabGT, slabLT, SlabV.isNaN]
  · cases a <;> simp [slabGT, slabLT, SlabV.isNaN]

theorem mergeMax_ninf (a b : SlabV) (h : a = .ninf ∨ b = .ninf) :
    mergeMax a b = .ninf := by
  unfold mergeMax
  rcases h with h | h <;> subst h
  · cases b <;> simp [slabLT, SlabV.isNaN]
  · cases a <;> simp [slabLT, SlabV.isNaN]

theorem mergeMin_fin_or_pinf (a b : SlabV)
    (h : (∃ p, a = .fin p) ∨ ∃ p, b = .fin p) :
    (∃ q, mergeMin a b = .fin q) ∨ mergeMin a b = .pinf := by
  unfold mergeMin
  cases a <;> cases b <;>
    simp_all [slabGT, slabLT, SlabV.isNaN] <;>
    split_ifs <;> simp_all

theorem mergeMax_fin_or_ninf (a b : SlabV)
    (h : (∃ p, a = .fin p) ∨ ∃ p, b = .fin p) :
    (∃ q, mergeMax a b = .fin q) ∨ mergeMax a b = .ninf := by
  unfold mergeMax
  cases a <;> cases b <;>
    simp_all [slabLT, SlabV.isNaN] <;>
    split_ifs <;> simp_all

theorem slabGT_false_fin (a b : SlabV) (p q : ℚ) (h : slabGT a b = false)
    (ha : a = .fin p) (hb : b = .fin q) : p ≤ q := by
  subst ha hb
  exact le_of_not_lt (by simpa [slabGT, slabLT] using h)

theorem slabGT_false_pinf (a b : SlabV) (h : slabGT a b = false) (ha : a = .pinf) :
    b = .pinf ∨ b = .nan := by
  subst ha
  cases b <;> simp_all [slabGT, slabLT]

theorem slabGE_zero_true (a : SlabV) (h : slabGE a (.fin 0) = true) :
    a = .pinf ∨ ∃ q, a = .fin q ∧ 0 ≤ q := by
  cases a with
  | nan => simp [slabGE] at h
  | pinf => exact Or.inl rfl
  | ninf => simp [slabGE, slabLT] at h
  | fin q =>
    refine Or.inr ⟨q, rfl, ?_⟩
    simpa [slabGE, slabLT, not_lt] using h

theorem slabGE_zero_false (a : SlabV) (h : slabGE a (.fin 0) = false) :
    a = .nan ∨ a = .ninf ∨ ∃ q, a = .fin q ∧ q < 0 := by
  cases a with
  | nan => exact Or.inl rfl
  | pinf => simp [slabGE, slabLT] at h
  | ninf => exact Or.inr (Or.inl rfl)
  | fin q =>
    refine Or.inr (Or.inr ⟨q, rfl, ?_⟩)
    simpa [slabGE, slabLT] using h

theorem slabLT_zero_false (a : SlabV) (h : slabLT a (.fin 0) = false) :
    a ≠ .ninf ∧ ∀ q, a = .fin q → 0 ≤ q := by
  cases a with
  | nan => exact ⟨by simp, by simp⟩
  | pinf => exact ⟨by simp, by simp⟩
  | ninf => simp [slabLT] at h
  | fin q =>
    refine ⟨by simp, ?_⟩
    intro p hp
    cases hp
    simpa [slabLT, not_lt] using h

/-- `mulPinf` never yields a finite value. -/
theorem mulPinf_ne_fin (q p : ℚ) : mulPinf q ≠ .fin p := by
  unfold mulPinf
  split_ifs <;> simp

/-- The slab pair of an axis satisfies the semantic interface `AxisOK`. -/
theorem axisSlab_AxisOK (bmin bmax o d : ℚ) (hwf : bmin ≤ bmax) :
    AxisOK (axisSlab bmin bmax o d).1 (axisSlab bmin bmax o d).2 (memA bmin bmax o d) := by
  unfold axisSlab AxisOK memA
  rcases lt_trichotomy d 0 with hd | hd | hd
  · rw [if_neg (by linarith), if_pos hd]
    left
    refine ⟨(bmax - o) / d, (bmin - o) / d, rfl, rfl, fun w => ?_, ?_⟩
    · constructor
      · rintro ⟨h1, h2⟩
        constructor
        · rw [div_le_iff_of_neg hd]
          linarith
        · rw [le_div_iff_of_neg hd]
          linarith
      · rintro ⟨h1, h2⟩
        rw [div_le_iff_of_neg hd] at h1
        rw [le_div_iff_of_neg hd] at h2
        exact ⟨by linarith, by linarith⟩
    · rw [div_le_iff_of_neg hd, div_mul_cancel₀ _ (ne_of_lt hd)]
      linarith
  · subst hd
    rw [if_neg (by linarith), if_neg (by linarith)]
    right
    refine ⟨fun q => mulPinf_ne_fin _ q, fun q => mulPinf_ne_fin _ q, ?_⟩
    intro hl hu w
    have h1 : ¬ (0 < bmin - o) := by
      intro hc
      apply hl
      show mulPinf (bmin - o) = .pinf
      unfold mulPinf
      rw [if_pos hc]
    have h2 : ¬ (bmax - o < 0) := by
      intro hc
      apply hu
      show mulPinf (bmax - o) = .ninf
      unfold mulPinf
      rw [if_neg (by linarith), if_pos hc]
    constructor <;> [nlinarith; nlinarith]
  · rw [if_pos hd]
    left
    refine ⟨(bmin - o) / d, (bmax - o) / d, rfl, rfl, fun w => ?_, ?_⟩
    · constructor
      · rintro ⟨h1, h2⟩
        constructor
        · rw [div_le_iff hd]
          linarith
        · rw [le_div_iff hd]
          linarith
      · rintro ⟨h1, h2⟩
        rw [div_le_iff hd] at h1
        rw [le_div_iff hd] at h2
        exact ⟨by linarith, by linarith⟩
    · rw [div_le_iff hd, div_mul_cancel₀ _ (ne_of_gt hd)]
      linarith

/-- Destructuring of a successful `combine`: the three checks are false and
the result is the `tmin >= 0 ? tmin : tmax` selection. -/
theorem combine_eq_some (lx ux ly uy lz uz : SlabV) (r : SlabV)
    (h : combine lx ux ly uy lz uz = some r) :
    slabGT lx uy = false ∧ slabGT ly ux = false ∧
    slabGT (mergeMin lx ly) uz = false ∧ slabGT lz (mergeMax ux uy) = false ∧
    slabLT (mergeMax (mergeMax ux uy) uz) (.fin 0) = false ∧
    ((slabGE (mergeMin (mergeMin lx ly) lz) (.fin 0) = true ∧
        r = mergeMin (mergeMin lx ly) lz) ∨
     (slabGE (mergeMin (mergeMin lx ly) lz) (.fin 0) = false ∧
        r = mergeMax (mergeMax ux uy) uz)) := by
  simp only [combine] at h
  split_ifs at h with h1 h2 h3 h4 <;>
    first
      | exact Option.noConfusion h
      | (simp only [Bool.or_eq_true, not_or, Bool.not_eq_true] at h1 h2
         rw [Bool.not_eq_true] at h3
         refine ⟨h1.1, h1.2, h2.1, h2.2, h3, ?_⟩
         first
           | exact Or.inl ⟨h4, (Option.some.inj h).symm⟩
           | (rw [Bool.not_eq_true] at h4
              exact Or.inr ⟨h4, (Option.some.inj h).symm⟩))

/-- In `AxisOK`, the two slab parameters are finite together. -/
theorem AxisOK_pair (l u : SlabV) (S : ℚ → Prop) (h : AxisOK l u S) :
    (∃ p, l = .fin p) ↔ (∃ p, u = .fin p) := by
  rcases h with ⟨lq, uq, hl, hu, _, _⟩ | ⟨hl, hu, _⟩
  · subst hl hu
    exact ⟨fun _ => ⟨uq, rfl⟩, fun _ => ⟨lq, rfl⟩⟩
  · constructor
    · rintro ⟨p, hp⟩
      exact absurd hp (hl p)
    · rintro ⟨p, hp⟩
      exact absurd hp (hu p)

/-- A `+∞` lower slab parameter rules out a finite upper one. -/
theorem AxisOK_pinf_upper (l u : SlabV) (S : ℚ → Prop) (h : AxisOK l u S)
    (hp : l = .pinf) : ∀ q, u ≠ .fin q := by
  rcases h with ⟨lq, uq, hl, _, _, _⟩ | ⟨_, hu, _⟩
  · rw [hp] at hl
    exact SlabV.noConfusion hl
  · exact hu

/-- When at least one direction component is non-zero (one axis has finite
slab parameters), a successful `combine` returns a finite parameter. -/
theorem combine_some_fin (lx ux ly uy lz uz : SlabV)
    (Sx Sy Sz : ℚ → Prop)
    (hx : AxisOK lx ux Sx) (hy : AxisOK ly uy Sy) (hz : AxisOK lz uz Sz)
    (hfin : (∃ p, lx = .fin p) ∨ (∃ p, ly = .fin p) ∨ (∃ p, lz = .fin p))
    (r : SlabV) (h : combine lx ux ly uy lz uz = some r) : ∃ q, r = .fin q := by
  obtain ⟨hc1, hc2, hc3, hc4, hc5, hsel⟩ := combine_eq_some lx ux ly uy lz uz r h
  rcases hsel with ⟨hge, hr⟩ | ⟨hge, hr⟩
  · -- result is tminF with tminF >= 0
    rcases slabGE_zero_true _ hge with hpinf | ⟨q, hq, _⟩
    swap
    · exact ⟨q, by rw [hr, hq]⟩
    · exfalso
      rcases mergeMin_cases (mergeMin lx ly) lz with he | he
      · -- tminF = tmin1 = pinf
        have htmin1 : mergeMin lx ly = .pinf := by rw [← he, hpinf]
        rcases mergeMin_cases lx ly with he2 | he2
        · -- lx = pinf
          have hlx : lx = .pinf := by rw [← he2, htmin1]
          have huy := slabGT_false_pinf lx uy hc1 hlx
          have hux := AxisOK_pinf_upper lx ux Sx hx hlx
          -- y has no finite parameters either
          have huy2 : ∀ q, uy ≠ .fin q := by
            intro q hq2
            rcases huy with h5 | h5 <;> rw [h5] at hq2 <;> exact SlabV.noConfusion hq2
          have hly2 : ∀ q, ly ≠ .fin q := by
            intro q hq2
            rcases (AxisOK_pair ly uy Sy hy).mp ⟨q, hq2⟩ with ⟨p, hp⟩
            exact huy2 p hp
          -- so z is the finite axis
          have hlz : ∃ p, lz = .fin p := by
            rcases hfin with ⟨p, hp⟩ | ⟨p, hp⟩ | hp
            · rw [hlx] at hp; exact absurd hp (by simp)
            · exact absurd hp (hly2 p)
            · exact hp
          rcases (AxisOK_pair lz uz Sz hz).mp hlz with ⟨p, hp⟩
          have := slabGT_false_pinf _ uz hc3 htmin1
          rcases this with h5 | h5 <;> rw [h5] at hp <;> exact SlabV.noConfusion hp
        · -- ly = pinf
          have hly : ly = .pinf := by rw [← he2, htmin1]
          have hux := slabGT_false_pinf ly ux hc2 hly
          have hux2 : ∀ q, ux ≠ .fin q := by
            intro q hq2
            rcases hux with h5 | h5 <;> rw [h5] at hq2 <;> exact SlabV.noConfusion hq2
          have hlx2 : ∀ q, lx ≠ .fin q := by
            intro q hq2
            rcases (AxisOK_pair lx ux Sx hx).mp ⟨q, hq2⟩ with ⟨p, hp⟩
            exact hux2 p hp
          have hly2 := AxisOK_pinf_upper ly uy Sy hy hly
          have hlz : ∃ p, lz = .fin p := by
            rcases hfin with ⟨p, hp⟩ | ⟨p, hp⟩ | hp
            · exact absurd hp (hlx2 p)
            · rw [hly] at hp; exact absurd hp (by simp)
            · exact hp
          rcases (AxisOK_pair lz uz Sz hz).mp hlz with ⟨p, hp⟩
          have := slabGT_false_pinf _ uz hc3 htmin1
          rcases this with h5 | h5 <;> rw [h5] at hp <;> exact SlabV.noConfusion hp
      · -- tminF = lz = pinf
        have hlz : lz = .pinf := by rw [← he, hpinf]
        have huz := AxisOK_pinf_upper lz uz Sz hz hlz
        have htmax1 := slabGT_false_pinf lz (mergeMax ux uy) hc4 hlz
        -- the finite axis is x or y, so tmax1 is finite or -∞
        have hxy : (∃ p, ux = .fin p) ∨ (∃ p, uy = .fin p) := by
          rcases hfin with hp | hp | ⟨p, hp⟩
          · exact Or.inl ((AxisOK_pair lx ux Sx hx).mp hp)
          · exact Or.inr ((AxisOK_pair ly uy Sy hy).mp hp)
          · rw [hlz] at hp; exact absurd hp (by simp)
        rcases mergeMax_fin_or_ninf ux uy hxy with ⟨q, hq⟩ | hq
        · rcases htmax1 with h5 | h5 <;> rw [h5] at hq <;> exact SlabV.noConfusion hq
        · rcases htmax1 with h5 | h5 <;> rw [h5] at hq <;> exact SlabV.noConfusion hq
  · -- result is tmaxF (with tminF not >= 0)
    subst hr
    have hup : (∃ p, ux = .fin p) ∨ (∃ p, uy = .fin p) ∨ (∃ p, uz = .fin p) := by
      rcases hfin with hp | hp | hp
      · exact Or.inl ((AxisOK_pair lx ux Sx hx).mp hp)
      · exact Or.inr (Or.inl ((AxisOK_pair ly uy Sy hy).mp hp))
      · exact Or.inr (Or.inr ((AxisOK_pair lz uz Sz hz).mp hp))
    have hne := (slabLT_zero_false _ hc5).1
    rcases hup with hp | hp | hp
    · rcases mergeMax_fin_or_ninf ux uy (Or.inl hp) with ⟨q, hq⟩ | hq
      · rcases mergeMax_fin_or_ninf (mergeMax ux uy) uz (Or.inl ⟨q, hq⟩) with hfq | hfq
        · exact hfq
        · exact absurd hfq hne
      · have := mergeMax_ninf (mergeMax ux uy) uz (Or.inl hq)
        exact absurd this hne
    · rcases mergeMax_fin_or_ninf ux uy (Or.inr hp) with ⟨q, hq⟩ | hq
      · rcases mergeMax_fin_or_ninf (mergeMax ux uy) uz (Or.inl ⟨q, hq⟩) with hfq | hfq
        · exact hfq
        · exact absurd hfq hne
      · have := mergeMax_ninf (mergeMax ux uy) uz (Or.inl hq)
        exact absurd this hne
    · rcases mergeMax_fin_or_ninf (mergeMax ux uy) uz (Or.inr hp) with hfq | hfq
      · exact hfq
      · exact absurd hfq hne

/-- A finite lower slab parameter bounds every member of the axis from
below. -/
theorem AxisOK_lb (l u : SlabV) (S : ℚ → Prop) (h : AxisOK l u S) (p : ℚ)
    (hl : l = .fin p) : ∀ w, S w → p ≤ w := by
  rcases h with ⟨lq, uq, hl2, _, hiff, _⟩ | ⟨hlf, _, _⟩
  · intro w hw
    rw [hl] at hl2
    cases hl2
    exact ((hiff w).mp hw).1
  · exact absurd hl (hlf p)

/-- A finite upper slab parameter bounds every member of the axis from
above. -/
theorem AxisOK_ub (l u : SlabV) (S : ℚ → Prop) (h : AxisOK l u S) (p : ℚ)
    (hu : u = .fin p) : ∀ w, S w → w ≤ p := by
  rcases h with ⟨lq, uq, _, hu2, hiff, _⟩ | ⟨_, huf, _⟩
  · intro w hw
    rw [hu] at hu2
    cases hu2
    exact ((hiff w).mp hw).2
  · exact absurd hu (huf p)

/-- Finite slab parameters of one axis are ordered. -/
theorem AxisOK_order (l u : SlabV) (S : ℚ → Prop) (h : AxisOK l u S) (p q : ℚ)
    (hl : l = .fin p) (hu : u = .fin q) : p ≤ q := by
  rcases h with ⟨lq, uq, hl2, hu2, _, hord⟩ | ⟨hlf, _, _⟩
  · rw [hl] at hl2
    rw [hu] at hu2
    cases hl2
    cases hu2
    exact hord
  · exact absurd hl (hlf p)

/-- Membership in one axis from the finite-parameter bounds (or from the
unconstrained degenerate case). -/
theorem AxisOK_mem (l u : SlabV) (S : ℚ → Prop) (h : AxisOK l u S) (v : ℚ)
    (hnp : l ≠ .pinf) (hnn : u ≠ .ninf)
    (hge : ∀ p, l = .fin p → p ≤ v) (hle : ∀ p, u = .fin p → v ≤ p) : S v := by
  rcases h with ⟨lq, uq, hl, hu, hiff, _⟩ | ⟨_, _, hall⟩
  · exact (hiff v).mpr ⟨hge lq hl, hle uq hu⟩
  · exact hall hnp hnn v

/-- The merged minimum is one of the three lower parameters. -/
theorem tminF_mem (lx ly lz : SlabV) :
    mergeMin (mergeMin lx ly) lz = lx ∨ mergeMin (mergeMin lx ly) lz = ly ∨
      mergeMin (mergeMin lx ly) lz = lz := by
  rcases mergeMin_cases (mergeMin lx ly) lz with he | he
  · rcases mergeMin_cases lx ly with he2 | he2
    · exact Or.inl (he.trans he2)
    · exact Or.inr (Or.inl (he.trans he2))
  · exact Or.inr (Or.inr he)

/-- The merged maximum is one of the three upper parameters. -/
theorem tmaxF_mem (ux uy uz : SlabV) :
    mergeMax (mergeMax ux uy) uz = ux ∨ mergeMax (mergeMax ux uy) uz = uy ∨
      mergeMax (mergeMax ux uy) uz = uz := by
  rcases mergeMax_cases (mergeMax ux uy) uz with he | he
  · rcases mergeMax_cases ux uy with he2 | he2
    · exact Or.inl (he.trans he2)
    · exact Or.inr (Or.inl (he.trans he2))
  · exact Or.inr (Or.inr he)

/-- A finite merged minimum dominates every finite lower parameter. -/
theorem tminF_fin_ge (lx ly lz : SlabV) (a : ℚ)
    (h : mergeMin (mergeMin lx ly) lz = .fin a) :
    (∀ p, lx = .fin p → p ≤ a) ∧ (∀ p, ly = .fin p → p ≤ a) ∧
      (∀ p, lz = .fin p → p ≤ a) := by
  obtain ⟨h1, h2⟩ := mergeMin_fin_ge _ _ _ h
  refine ⟨?_, ?_, h2⟩
  · intro p hp
    rcases mergeMin_fin_or_pinf lx ly (Or.inl ⟨p, hp⟩) with ⟨s, hs⟩ | hs
    · exact le_trans ((mergeMin_fin_ge lx ly s hs).1 p hp) (h1 s hs)
    · have hcontra := mergeMin_pinf (mergeMin lx ly) lz (Or.inl hs)
      rw [h] at hcontra
      exact SlabV.noConfusion hcontra
  · intro p hp
    rcases mergeMin_fin_or_pinf lx ly (Or.inr ⟨p, hp⟩) with ⟨s, hs⟩ | hs
    · exact le_trans ((mergeMin_fin_ge lx ly s hs).2 p hp) (h1 s hs)
    · have hcontra := mergeMin_pinf (mergeMin lx ly) lz (Or.inl hs)
      rw [h] at hcontra
      exact SlabV.noConfusion hcontra

/-- A finite merged maximum is dominated by every finite upper parameter. -/
theorem tmaxF_fin_le (ux uy uz : SlabV) (a : ℚ)
    (h : mergeMax (mergeMax ux uy) uz = .fin a) :
    (∀ p, ux = .fin p → a ≤ p) ∧ (∀ p, uy = .fin p → a ≤ p) ∧
      (∀ p, uz = .fin p → a ≤ p) := by
  obtain ⟨h1, h2⟩ := mergeMax_fin_le _ _ _ h
  refine ⟨?_, ?_, h2⟩
  · intro p hp
    rcases mergeMax_fin_or_ninf ux uy (Or.inl ⟨p, hp⟩) with ⟨s, hs⟩ | hs
    · exact le_trans (h1 s hs) ((mergeMax_fin_le ux uy s hs).1 p hp)
    · have hcontra := mergeMax_ninf (mergeMax ux uy) uz (Or.inl hs)
      rw [h] at hcontra
      exact SlabV.noConfusion hcontra
  · intro p hp
    rcases mergeMax_fin_or_ninf ux uy (Or.inr ⟨p, hp⟩) with ⟨s, hs⟩ | hs
    · exact le_trans (h1 s hs) ((mergeMax_fin_le ux uy s hs).2 p hp)
    · have hcontra := mergeMax_ninf (mergeMax ux uy) uz (Or.inl hs)
      rw [h] at hcontra
      exact SlabV.noConfusion hcontra

/-- After the three checks pass, a finite merged minimum is dominated by
every finite upper parameter (the cross-axis early-exit checks provide the
cross bounds). -/
theorem tmin_le_uppers (lx ux ly uy lz uz : SlabV) (Sx Sy Sz : ℚ → Prop)
    (hx : AxisOK lx ux Sx) (hy : AxisOK ly uy Sy) (hz : AxisOK lz uz Sz)
    (hc1 : slabGT lx uy = false) (hc2 : slabGT ly ux = false)
    (hc3 : slabGT (mergeMin lx ly) uz = false)
    (hc4 : slabGT lz (mergeMax ux uy) = false)
    (hc5 : slabLT (mergeMax (mergeMax ux uy) uz) (.fin 0) = false)
    (v : ℚ) (hv : mergeMin (mergeMin lx ly) lz = .fin v) :
    (∀ p, ux = .fin p → v ≤ p) ∧ (∀ p, uy = .fin p → v ≤ p) ∧
      (∀ p, uz = .fin p → v ≤ p) := by
  have hMF_ne_ninf := (slabLT_zero_false _ hc5).1
  rcases mergeMin_cases (mergeMin lx ly) lz with he | he
  · -- the minimum came from the x/y merge
    have hm1 : mergeMin lx ly = .fin v := by rw [← he, hv]
    rcases mergeMin_cases lx ly with he2 | he2
    · -- v is the x lower parameter
      have hlx : lx = .fin v := by rw [← he2, hm1]
      refine ⟨?_, ?_, ?_⟩
      · intro p hp
        exact AxisOK_order lx ux Sx hx v p hlx hp
      · intro p hp
        exact slabGT_false_fin lx uy v p hc1 hlx hp
      · intro p hp
        exact slabGT_false_fin _ uz v p hc3 hm1 hp
    · -- v is the y lower parameter
      have hly : ly = .fin v := by rw [← he2, hm1]
      refine ⟨?_, ?_, ?_⟩
      · intro p hp
        exact slabGT_false_fin ly ux v p hc2 hly hp
      · intro p hp
        exact AxisOK_order ly uy Sy hy v p hly hp
      · intro p hp
        exact slabGT_false_fin _ uz v p hc3 hm1 hp
  · -- v is the z lower parameter
    have hlz : lz = .fin v := by rw [← he, hv]
    have hM1bound : ∀ p, mergeMax ux uy = .fin p → v ≤ p := fun p hp =>
      slabGT_false_fin lz _ v p hc4 hlz hp
    have hM1cases : ∀ p, (ux = .fin p ∨ uy = .fin p) →
        (∃ s, mergeMax ux uy = .fin s ∧ s ≤ p) := by
      intro p hp
      have hfin : (∃ q, ux = .fin q) ∨ (∃ q, uy = .fin q) := by
        rcases hp with hp | hp
        · exact Or.inl ⟨p, hp⟩
        · exact Or.inr ⟨p, hp⟩
      rcases mergeMax_fin_or_ninf ux uy hfin with ⟨s, hs⟩ | hs
      · refine ⟨s, hs, ?_⟩
        rcases hp with hp | hp
        · exact (mergeMax_fin_le ux uy s hs).1 p hp
        · exact (mergeMax_fin_le ux uy s hs).2 p hp
      · exfalso
        exact hMF_ne_ninf (mergeMax_ninf (mergeMax ux uy) uz (Or.inl hs))
    refine ⟨?_, ?_, ?_⟩
    · intro p hp
      obtain ⟨s, hs, hsp⟩ := hM1cases p (Or.inl hp)
      exact le_trans (hM1bound s hs) hsp
    · intro p hp
      obtain ⟨s, hs, hsp⟩ := hM1cases p (Or.inr hp)
      exact le_trans (hM1bound s hs) hsp
    · intro p hp
      exact AxisOK_order lz uz Sz hz v p hlz hp

/-- After the three checks pass, a finite merged maximum dominates every
finite lower parameter. -/
theorem tmax_ge_lowers (lx ux ly uy lz uz : SlabV) (Sx Sy Sz : ℚ → Prop)
    (hx : AxisOK lx ux Sx) (hy : AxisOK ly uy Sy) (hz : AxisOK lz uz Sz)
    (hc1 : slabGT lx uy = false) (hc2 : slabGT ly ux = false)
    (hc3 : slabGT (mergeMin lx ly) uz = false)
    (hc4 : slabGT lz (mergeMax ux uy) = false)
    (v : ℚ) (hv : mergeMax (mergeMax ux uy) uz = .fin v) :
    (∀ p, lx = .fin p → p ≤ v) ∧ (∀ p, ly = .fin p → p ≤ v) ∧
      (∀ p, lz = .fin p → p ≤ v) := by
  have hm1bound : ∀ p, (lx = .fin p ∨ ly = .fin p) → mergeMax (mergeMax ux uy) uz = uz →
      p ≤ v := by
    intro p hp heq
    have huz : uz = .fin v := by rw [← heq, hv]
    have hfin : (∃ q, lx = .fin q) ∨ (∃ q, ly = .fin q) := by
      rcases hp with hp | hp
      · exact Or.inl ⟨p, hp⟩
      · exact Or.inr ⟨p, hp⟩
    rcases mergeMin_fin_or_pinf lx ly hfin with ⟨s, hs⟩ | hs
    · have hsv := slabGT_false_fin _ uz s v hc3 hs huz
      rcases hp with hp | hp
      · exact le_trans ((mergeMin_fin_ge lx ly s hs).1 p hp) hsv
      · exact le_trans ((mergeMin_fin_ge lx ly s hs).2 p hp) hsv
    · exfalso
      rcases slabGT_false_pinf _ uz hc3 hs with h5 | h5 <;> rw [h5] at huz <;>
        exact SlabV.noConfusion huz
  rcases mergeMax_cases (mergeMax ux uy) uz with he | he
  · -- the maximum came from the x/y merge
    have hM1 : mergeMax ux uy = .fin v := by rw [← he, hv]
    rcases mergeMax_cases ux uy with he2 | he2
    · -- v is the x upper parameter
      have hux : ux = .fin v := by rw [← he2, hM1]
      refine ⟨?_, ?_, ?_⟩
      · intro p hp
        exact AxisOK_order lx ux Sx hx p v hp hux
      · intro p hp
        exact slabGT_false_fin ly ux p v hc2 hp hux
      · intro p hp
        exact slabGT_false_fin lz _ p v hc4 hp hM1
    · -- v is the y upper parameter
      have huy : uy = .fin v := by rw [← he2, hM1]
      refine ⟨?_, ?_, ?_⟩
      · intro p hp
        exact slabGT_false_fin lx uy p v hc1 hp huy
      · intro p hp
        exact AxisOK_order ly uy Sy hy p v hp huy
      · intro p hp
        exact slabGT_false_fin lz _ p v hc4 hp hM1
  · -- v is the z upper parameter
    have huz : uz = .fin v := by rw [← he, hv]
    refine ⟨?_, ?_, ?_⟩
    · intro p hp
      exact hm1bound p (Or.inl hp) he
    · intro p hp
      exact hm1bound p (Or.inr hp) he
    · intro p hp
      exact AxisOK_order lz uz Sz hz p v hp huz

/-- Full specification of a finite `combine` result: it is non-negative, its
ray point lies in the box, and it is extremal — the first box parameter
along the ray (a lower bound of all box parameters), or, when the ray
origin is inside or past the box (the merged minimum is negative), the last
box parameter, in which case a negative box parameter also exists. -/
theorem combine_spec (lx ux ly uy lz uz : SlabV) (Sx Sy Sz : ℚ → Prop)
    (hx : AxisOK lx ux Sx) (hy : AxisOK ly uy Sy) (hz : AxisOK lz uz Sz)
    (u : ℚ) (h : combine lx ux ly uy lz uz = some (.fin u)) :
    0 ≤ u ∧ (Sx u ∧ Sy u ∧ Sz u) ∧
    ((∀ w, Sx w ∧ Sy w ∧ Sz w → u ≤ w) ∨
     ((∀ w, Sx w ∧ Sy w ∧ Sz w → w ≤ u) ∧ ∃ a, a < 0 ∧ Sx a ∧ Sy a ∧ Sz a)) := by
  obtain ⟨hc1, hc2, hc3, hc4, hc5, hsel⟩ := combine_eq_some lx ux ly uy lz uz _ h
  have hMF_ne_ninf := (slabLT_zero_false _ hc5).1
  have hnnx : ux ≠ .ninf := fun hn =>
    hMF_ne_ninf (mergeMax_ninf _ uz (Or.inl (mergeMax_ninf ux uy (Or.inl hn))))
  have hnny : uy ≠ .ninf := fun hn =>
    hMF_ne_ninf (mergeMax_ninf _ uz (Or.inl (mergeMax_ninf ux uy (Or.inr hn))))
  have hnnz : uz ≠ .ninf := fun hn => hMF_ne_ninf (mergeMax_ninf _ uz (Or.inr hn))
  rcases hsel with ⟨hge, hr⟩ | ⟨hge, hr⟩
  · -- the result is the merged minimum
    have hv : mergeMin (mergeMin lx ly) lz = .fin u := hr.symm
    have hnpx : lx ≠ .pinf := fun hp => by
      have := mergeMin_pinf (mergeMin lx ly) lz (Or.inl (mergeMin_pinf lx ly (Or.inl hp)))
      rw [hv] at this
      exact SlabV.noConfusion this
    have hnpy : ly ≠ .pinf := fun hp => by
      have := mergeMin_pinf (mergeMin lx ly) lz (Or.inl (mergeMin_pinf lx ly (Or.inr hp)))
      rw [hv] at this
      exact SlabV.noConfusion this
    have hnpz : lz ≠ .pinf := fun hp => by
      have := mergeMin_pinf (mergeMin lx ly) lz (Or.inr hp)
      rw [hv] at this
      exact SlabV.noConfusion this
    have hu0 : 0 ≤ u := by
      rcases slabGE_zero_true _ hge with hpinf | ⟨q, hq, hq0⟩
      · rw [hv] at hpinf
        exact SlabV.noConfusion hpinf
      · rw [hv] at hq
        cases hq
        exact hq0
    obtain ⟨hgx, hgy, hgz⟩ := tminF_fin_ge lx ly lz u hv
    obtain ⟨hlex, hley, hlez⟩ :=
      tmin_le_uppers lx ux ly uy lz uz Sx Sy Sz hx hy hz hc1 hc2 hc3 hc4 hc5 u hv
    refine ⟨hu0, ⟨AxisOK_mem lx ux Sx hx u hnpx hnnx hgx hlex,
                  AxisOK_mem ly uy Sy hy u hnpy hnny hgy hley,
                  AxisOK_mem lz uz Sz hz u hnpz hnnz hgz hlez⟩, Or.inl ?_⟩
    -- minimality: u is one of the finite lower parameters
    rintro w ⟨hwx, hwy, hwz⟩
    rcases tminF_mem lx ly lz with he | he | he
    · exact AxisOK_lb lx ux Sx hx u (by rw [← he, hv]) w hwx
    · exact AxisOK_lb ly uy Sy hy u (by rw [← he, hv]) w hwy
    · exact AxisOK_lb lz uz Sz hz u (by rw [← he, hv]) w hwz
  · -- the result is the merged maximum
    have hv : mergeMax (mergeMax ux uy) uz = .fin u := hr.symm
    have hu0 : 0 ≤ u := (slabLT_zero_false _ hc5).2 u hv
    -- the merged minimum is a finite negative value
    have hl_fin : (∃ p, lx = .fin p) ∨ (∃ p, ly = .fin p) ∨ ∃ p, lz = .fin p := by
      rcases tmaxF_mem ux uy uz with he | he | he
      · exact Or.inl ((AxisOK_pair lx ux Sx hx).mpr ⟨u, by rw [← he, hv]⟩)
      · exact Or.inr (Or.inl ((AxisOK_pair ly uy Sy hy).mpr ⟨u, by rw [← he, hv]⟩))
      · exact Or.inr (Or.inr ((AxisOK_pair lz uz Sz hz).mpr ⟨u, by rw [← he, hv]⟩))
    have hmf_fin : ∃ a, mergeMin (mergeMin lx ly) lz = .fin a := by
      have hstep : (∃ q, mergeMin (mergeMin lx ly) lz = .fin q) ∨
          mergeMin (mergeMin lx ly) lz = .pinf := by
        rcases hl_fin with ⟨p, hp⟩ | ⟨p, hp⟩ | ⟨p, hp⟩
        · rcases mergeMin_fin_or_pinf lx ly (Or.inl ⟨p, hp⟩) with ⟨s, hs⟩ | hs
          · exact mergeMin_fin_or_pinf _ lz (Or.inl ⟨s, hs⟩)
          · exact Or.inr (mergeMin_pinf _ lz (Or.inl hs))
        · rcases mergeMin_fin_or_pinf lx ly (Or.inr ⟨p, hp⟩) with ⟨s, hs⟩ | hs
          · exact mergeMin_fin_or_pinf _ lz (Or.inl ⟨s, hs⟩)
          · exact Or.inr (mergeMin_pinf _ lz (Or.inl hs))
        · exact mergeMin_fin_or_pinf _ lz (Or.inr ⟨p, hp⟩)
      rcases hstep with hfin | hpinf
      · exact hfin
      · exfalso
        rcases slabGE_zero_false _ hge with h5 | h5 | ⟨q, h5, _⟩ <;> rw [hpinf] at h5 <;>
          exact SlabV.noConfusion h5
    obtain ⟨a, ha⟩ := hmf_fin
    have ha0 : a < 0 := by
      rcases slabGE_zero_false _ hge with h5 | h5 | ⟨q, h5, hq0⟩
      · rw [ha] at h5
        exact SlabV.noConfusion h5
      · rw [ha] at h5
        exact SlabV.noConfusion h5
      · rw [ha] at h5
        cases h5
        exact hq0
    have hnpx : lx ≠ .pinf := fun hp => by
      have := mergeMin_pinf (mergeMin lx ly) lz (Or.inl (mergeMin_pinf lx ly (Or.inl hp)))
      rw [ha] at this
      exact SlabV.noConfusion this
    have hnpy : ly ≠ .pinf := fun hp => by
      have := mergeMin_pinf (mergeMin lx ly) lz (Or.inl (mergeMin_pinf lx ly (Or.inr hp)))
      rw [ha] at this
      exact SlabV.noConfusion this
    have hnpz : lz ≠ .pinf := fun hp => by
      have := mergeMin_pinf (mergeMin lx ly) lz (Or.inr hp)
      rw [ha] at this
      exact SlabV.noConfusion this
    obtain ⟨hgx, hgy, hgz⟩ :=
      tmax_ge_lowers lx ux ly uy lz uz Sx Sy Sz hx hy hz hc1 hc2 hc3 hc4 u hv
    obtain ⟨hlex, hley, hlez⟩ := tmaxF_fin_le ux uy uz u hv
    obtain ⟨hagx, hagy, hagz⟩ := tminF_fin_ge lx ly lz a ha
    obtain ⟨halex, haley, halez⟩ :=
      tmin_le_uppers lx ux ly uy lz uz Sx Sy Sz hx hy hz hc1 hc2 hc3 hc4 hc5 a ha
    refine ⟨hu0, ⟨AxisOK_mem lx ux Sx hx u hnpx hnnx hgx hlex,
                  AxisOK_mem ly uy Sy hy u hnpy hnny hgy hley,
                  AxisOK_mem lz uz Sz hz u hnpz hnnz hgz hlez⟩, Or.inr ⟨?_, a, ha0,
      AxisOK_mem lx ux Sx hx a hnpx hnnx hagx halex,
      AxisOK_mem ly uy Sy hy a hnpy hnny hagy haley,
      AxisOK_mem lz uz Sz hz a hnpz hnnz hagz halez⟩⟩
    -- maximality: u is one of the finite upper parameters
    rintro w ⟨hwx, hwy, hwz⟩
    rcases tmaxF_mem ux uy uz with he | he | he
    · exact AxisOK_ub lx ux Sx hx u (by rw [← he, hv]) w hwx
    · exact AxisOK_ub ly uy Sy hy u (by rw [← he, hv]) w hwy
    · exact AxisOK_ub lz uz Sz hz u (by rw [← he, hv]) w hwz

/-- A non-zero direction component makes both slab parameters finite. -/
theorem axisSlab_fin_of_ne (bmin bmax o d : ℚ) (hd : d ≠ 0) :
    ∃ p, (axisSlab bmin bmax o d).1 = .fin p := by
  unfold axisSlab
  rcases lt_trichotomy d 0 with h | h | h
  · rw [if_neg (by linarith), if_pos h]
    exact ⟨(bmax - o) / d, rfl⟩
  · exact absurd h hd
  · rw [if_pos h]
    exact ⟨(bmin - o) / d, rfl⟩

/-- A finite intersection parameter forces a non-zero direction (with a zero
direction every slab parameter is `±∞` or `NaN`, so no finite value can be
selected).  In particular `localSid > 0` on every path that reaches the
`distEntry <= localSid` guard with a finite entry parameter. -/
theorem intersect_fin_dir_ne_zero (bx : Box) (o d : Vec3) (u : ℚ)
    (h : intersectBoxU bx o d = some (.fin u)) :
    ¬ (d.x = 0 ∧ d.y = 0 ∧ d.z = 0) := by
  rintro ⟨hdx, hdy, hdz⟩
  rw [intersectBoxU_eq_combine, hdx, hdy, hdz] at h
  obtain ⟨_, _, _, _, _, hsel⟩ := combine_eq_some _ _ _ _ _ _ _ h
  have hax : ∀ bmin bmax oc : ℚ,
      axisSlab bmin bmax oc (0 : ℚ) = (mulPinf (bmin - oc), mulPinf (bmax - oc)) := by
    intro bmin bmax oc
    unfold axisSlab
    rw [if_neg (lt_irrefl 0), if_neg (lt_irrefl 0)]
  rcases hsel with ⟨_, hr⟩ | ⟨_, hr⟩
  · rcases tminF_mem (axisSlab bx.minX bx.maxX o.x 0).1 (axisSlab bx.minY bx.maxY o.y 0).1
        (axisSlab bx.minZ bx.maxZ o.z 0).1 with he | he | he <;>
      rw [he, hax] at hr <;> exact mulPinf_ne_fin _ _ hr.symm
  · rcases tmaxF_mem (axisSlab bx.minX bx.maxX o.x 0).2 (axisSlab bx.minY bx.maxY o.y 0).2
        (axisSlab bx.minZ bx.maxZ o.z 0).2 with he | he | he <;>
      rw [he, hax] at hr <;> exact mulPinf_ne_fin _ _ hr.symm

/-- Specification of a finite ray/box intersection parameter: non-negative,
its ray point lies in the box, and it is an extremal box parameter along the
ray. -/
theorem intersectBoxU_spec (bx : Box) (hwf : bx.wf) (o d : Vec3) (u : ℚ)
    (h : intersectBoxU bx o d = some (.fin u)) :
    0 ≤ u ∧ memBox bx o d u ∧
    ((∀ w, memBox bx o d w → u ≤ w) ∨
     ((∀ w, memBox bx o d w → w ≤ u) ∧ ∃ a, a < 0 ∧ memBox bx o d a)) := by
  rw [intersectBoxU_eq_combine] at h
  obtain ⟨hwx, hwy, hwz⟩ := hwf
  exact combine_spec _ _ _ _ _ _ _ _ _
    (axisSlab_AxisOK bx.minX bx.maxX o.x d.x hwx)
    (axisSlab_AxisOK bx.minY bx.maxY o.y d.y hwy)
    (axisSlab_AxisOK bx.minZ bx.maxZ o.z d.z hwz) u h

/-- With a non-zero direction and a well-formed box, a successful
intersection always returns a finite parameter. -/
theorem intersectBoxU_some_fin (bx : Box) (hwf : bx.wf) (o d : Vec3)
    (hd : ¬ (d.x = 0 ∧ d.y = 0 ∧ d.z = 0)) (r : SlabV)
    (h : intersectBoxU bx o d = some r) : ∃ q, r = .fin q := by
  rw [intersectBoxU_eq_combine] at h
  obtain ⟨hwx, hwy, hwz⟩ := hwf
  refine combine_some_fin _ _ _ _ _ _ _ _ _
    (axisSlab_AxisOK bx.minX bx.maxX o.x d.x hwx)
    (axisSlab_AxisOK bx.minY bx.maxY o.y d.y hwy)
    (axisSlab_AxisOK bx.minZ bx.maxZ o.z d.z hwz) ?_ r h
  by_cases hx : d.x = 0
  · by_cases hy : d.y = 0
    · have hz : d.z ≠ 0 := fun hz => hd ⟨hx, hy, hz⟩
      exact Or.inr (Or.inr (axisSlab_fin_of_ne _ _ _ _ hz))
    · exact Or.inr (Or.inl (axisSlab_fin_of_ne _ _ _ _ hy))
  · exact Or.inl (axisSlab_fin_of_ne _ _ _ _ hx)

/-- Membership for the backward ray (origin at the detector, direction
negated) is membership for the forward ray at the mirrored fraction. -/
theorem memBox_back_iff (bx : Box) (v1 v2 : Vec3) (w : ℚ) :
    memBox bx v2 (v2.sub v1).neg w ↔ memBox bx v1 (v2.sub v1) (1 - w) := by
  unfold memBox memA Vec3.sub Vec3.neg
  dsimp only
  constructor <;> rintro ⟨⟨a1, a2⟩, ⟨b1, b2⟩, ⟨c1, c2⟩⟩ <;>
    refine ⟨⟨by linarith, by linarith⟩, ⟨by linarith, by linarith⟩,
      ⟨by linarith, by linarith⟩⟩

/-- The crux of the interval invariant: the forward entry fraction plus the
backward entry fraction never exceed 1 (given the forward guard), in all
four combinations of the extremality disjuncts. -/
theorem fwd_back_le (bx : Box) (hwf : bx.wf) (v1 v2 : Vec3) (u u2 : ℚ)
    (hf : intersectBoxU bx v1 (v2.sub v1) = some (.fin u))
    (hb : intersectBoxU bx v2 (v2.sub v1).neg = some (.fin u2))
    (hu1 : u ≤ 1) : u ≤ 1 - u2 := by
  obtain ⟨hu0, hmemf, hextf⟩ := intersectBoxU_spec bx hwf v1 (v2.sub v1) u hf
  obtain ⟨hb0, hmemb, hextb⟩ := intersectBoxU_spec bx hwf v2 (v2.sub v1).neg u2 hb
  rcases hextf with hmin | ⟨hmax, a, ha0, hamem⟩
  · exact hmin (1 - u2) ((memBox_back_iff bx v1 v2 u2).mp hmemb)
  · rcases hextb with hbmin | ⟨_, a2, ha20, ha2mem⟩
    · have hmem2 : memBox bx v2 (v2.sub v1).neg (1 - u) := by
        rw [memBox_back_iff]
        have he : (1 : ℚ) - (1 - u) = u := by ring
        rw [he]
        exact hmemf
      have := hbmin (1 - u) hmem2
      linarith
    · have hmem2 : memBox bx v1 (v2.sub v1) (1 - a2) :=
        (memBox_back_iff bx v1 v2 a2).mp ha2mem
      have := hmax (1 - a2) hmem2
      linarith

set_option maxHeartbeats 1000000 in
/-- Claim C2: on every tick on which the beam is reported as a hit (the
entry guard passed, i.e. `beamGeom` produced an interval — the first
conjunct ties this to the tick's hit flag), the clamped interval satisfies
`0 ≤ tStart ≤ tEnd ≤ 1` (in particular `tEnd` is an actual rational, never
the `NaN`-like values the backward cast could in principle produce).  The
bounds are assumed well-formed (`min ≤ max` per axis), which the capture
operation `THREE.Box3.setFromObject` guarantees. -/
theorem claim_C2_interval (b : PatientBounds) (v1 v2 : Vec3) (hwf : b.wf) :
    ((classifyTick true b v1 v2).hit = true → (beamGeom b v1 v2).isSome = true) ∧
    (∀ tS tE, beamGeom b v1 v2 = some (tS, tE) →
      0 ≤ tS ∧ ∃ q, tE = .fin q ∧ tS ≤ q ∧ q ≤ 1) := by
  constructor
  · intro hhit
    unfold classifyTick at hhit
    by_cases hr : b.ready
    · rw [hr] at hhit
      simp only [Bool.and_true, if_true] at hhit
      rcases hbg : beamGeom b v1 v2 with _ | p
      · rw [hbg] at hhit
        exact absurd hhit (by simp)
      · rfl
    · rw [Bool.not_eq_true] at hr
      rw [hr] at hhit
      simp at hhit
  · intro tS tE h
    have hwfb : b.box.wf := hwf
    simp only [beamGeom] at h
    rcases hfw : intersectBoxU b.box v1 (v2.sub v1) with _ | r
    · rw [hfw] at h
      exact Option.noConfusion h
    · rw [hfw] at h
      cases r with
      | nan => exact Option.noConfusion h
      | pinf => exact Option.noConfusion h
      | ninf => exact Option.noConfusion h
      | fin u =>
        obtain ⟨hu0, _, _⟩ := intersectBoxU_spec b.box hwfb v1 (v2.sub v1) u hfw
        have habs : |u| = u := abs_of_nonneg hu0
        have h2 : (if |u| ≤ 1 then
            some (max 0 |u|, slabMin1
              (match intersectBoxU b.box v2 (v2.sub v1).neg with
               | none => SlabV.fin (1 - |u - 1|)
               | some (.fin v) => SlabV.fin (1 - |v|)
               | some _ => SlabV.nan))
            else (none : Option (ℚ × SlabV))) = some (tS, tE) := h
        by_cases hg : |u| ≤ 1
        · rw [if_pos hg] at h2
          have hu1 : u ≤ 1 := by rwa [habs] at hg
          have hdne := intersect_fin_dir_ne_zero b.box v1 (v2.sub v1) u hfw
          have hdneg : ¬ ((v2.sub v1).neg.x = 0 ∧ (v2.sub v1).neg.y = 0 ∧
              (v2.sub v1).neg.z = 0) := by
            simpa [Vec3.neg, neg_eq_zero] using hdne
          rcases hbk : intersectBoxU b.box v2 (v2.sub v1).neg with _ | r2
          · -- backward miss: exit falls back to the entry point
            rw [hbk] at h2
            have h3 : (max 0 |u|, SlabV.fin (min 1 (1 - |u - 1|))) = (tS, tE) :=
              Option.some.inj h2
            obtain ⟨hS, hE⟩ := Prod.mk.injEq .. ▸ h3
            have habs2 : |u - 1| = 1 - u := by
              rw [abs_of_nonpos (by linarith)]
              ring
            refine ⟨?_, min 1 (1 - |u - 1|), ?_, ?_, ?_⟩
            · rw [← hS]
              exact le_max_left 0 _
            · rw [← hE]
            · rw [← hS, habs, habs2]
              have he : (1 : ℚ) - (1 - u) = u := by ring
              rw [he]
              exact max_le (le_min (by norm_num) hu0) (le_min hu1 (le_refl u))
            · rw [habs2]
              have he : (1 : ℚ) - (1 - u) = u := by ring
              rw [he]
              exact min_le_left 1 _
          · obtain ⟨q2, hq2⟩ := intersectBoxU_some_fin b.box hwfb v2 (v2.sub v1).neg
              hdneg r2 hbk
            subst hq2
            rw [hbk] at h2
            have h3 : (max 0 |u|, SlabV.fin (min 1 (1 - |q2|))) = (tS, tE) :=
              Option.some.inj h2
            obtain ⟨hS, hE⟩ := Prod.mk.injEq .. ▸ h3
            obtain ⟨hq20, _, _⟩ := intersectBoxU_spec b.box hwfb v2 (v2.sub v1).neg q2 hbk
            have habs2 : |q2| = q2 := abs_of_nonneg hq20
            have hle := fwd_back_le b.box hwfb v1 v2 u q2 hfw hbk hu1
            refine ⟨?_, min 1 (1 - |q2|), ?_, ?_, ?_⟩
            · rw [← hS]
              exact le_max_left 0 _
            · rw [← hE]
            · rw [← hS, habs, habs2]
              exact max_le (le_min (by norm_num) (by linarith)) (le_min hu1 hle)
            · rw [habs2]
              exact min_le_left 1 _
        · rw [if_neg hg] at h2
          exact Option.noConfusion h2

/-- Witness for C2 at a concrete well-formed, hitting tick. -/
theorem claim_C2_witness :
    (⟨0, 1, 0, 1, 0, 1, true⟩ : PatientBounds).wf ∧
    beamGeom ⟨0, 1, 0, 1, 0, 1, true⟩ ⟨-1, 1/3, 1/2⟩ ⟨2, 1/3, 1/2⟩ =
        some (1/3, .fin (2/3)) ∧
    (0 ≤ (1 : ℚ)/3 ∧ ∃ q, (SlabV.fin (2/3) : SlabV) = .fin q ∧ (1 : ℚ)/3 ≤ q ∧ q ≤ 1) :=
  ⟨by with_unfolding_all decide, by with_unfolding_all decide,
   (claim_C2_interval ⟨0, 1, 0, 1, 0, 1, true⟩ ⟨-1, 1/3, 1/2⟩ ⟨2, 1/3, 1/2⟩
      (by with_unfolding_all decide)).2 (1/3) (.fin (2/3))
      (by with_unfolding_all decide)⟩

end CArm
